import Mathlib

/-!
Verification of the SUM Chain ledger app signing core.

This file is a shallow embedding of the C sources under src/:
tx_parser.c, tx_display.c, address.c, crypto.c, apdu_handlers.c, plus the
session/state declarations of globals.h.  Machine integers are modelled as
Nat with explicit reductions modulo 2^64 or 2^32 wherever the C arithmetic
can wrap; byte buffers are lists of Nat (each element a uint8 value).
External primitives (the BOLOS key provider, the BLAKE3 compression, the
UI collaborator) are parameters of the embedded handlers, matching the
collaborator contracts of the specification.
-/

namespace SumChain

/-- Limits from globals.h. -/
def MAX_TX_SIZE : Nat := 8192

def MAX_BIP32_PATH_LEN : Nat := 10

def PUBKEY_LEN : Nat := 32

def SIGNATURE_LEN : Nat := 64

def ADDRESS_LEN : Nat := 20

def ADDRESS_BASE58_MAX_LEN : Nat := 35

/-- Numeric range constants: 2^64 and 2^32, the uint64 / uint32 wrap moduli. -/
def U64 : Nat := 18446744073709551616

def U32 : Nat := 4294967296

/-- Status words from globals.h. -/
def SW_OK : Nat := 0x9000

def SW_USER_REJECTED : Nat := 0x6985

def SW_INVALID_PATH : Nat := 0x6A81

def SW_INVALID_P1P2 : Nat := 0x6B00

def SW_WRONG_LENGTH : Nat := 0x6700

def SW_INTERNAL_ERROR : Nat := 0x6F00

def SW_TX_PARSE_ERROR : Nat := 0x6F01

def SW_TX_OVERFLOW : Nat := 0x6F02

def SW_SESSION_ERROR : Nat := 0x6F03

def SW_TX_TOO_LARGE : Nat := 0x6F04

/-- P1/P2 constants for the sign-transaction instruction (globals.h). -/
def P1_FIRST_CHUNK : Nat := 0x00

def P1_MORE_CHUNK : Nat := 0x80

def P2_LAST_CHUNK : Nat := 0x00

def P2_MORE_CHUNKS : Nat := 0x80

/-- Parser state enum tx_parse_state_t of globals.h; the first constructor
has value 0 and is the state a zeroized context wakes up in. -/
inductive TxParseState where
  | init
  | version
  | chain_id
  | sender
  | nonce
  | gas_price
  | gas_limit
  | tx_type
  | recipient
  | amount
  | done
  | error
  deriving DecidableEq, Repr

/-- Record tx_parsed_t of globals.h; sender and recipient are 20-byte
buffers, all u64 fields are Nat values below 2^64 on every reachable run. -/
structure TxParsed where
  version : Nat
  chain_id : Nat
  sender : List Nat
  nonce : Nat
  gas_price : Nat
  gas_limit : Nat
  tx_type : Nat
  recipient : List Nat
  amount : Nat
  fee_overflow : Bool
  fee_low : Nat
  fee_high : Nat
  deriving DecidableEq, Repr

/-- All-zero tx_parsed_t, the result of memset 0. -/
def zeroParsed : TxParsed :=
  { version := 0, chain_id := 0, sender := List.replicate 20 0, nonce := 0,
    gas_price := 0, gas_limit := 0, tx_type := 0,
    recipient := List.replicate 20 0, amount := 0,
    fee_overflow := false, fee_low := 0, fee_high := 0 }

/-- Streaming parser context tx_parser_ctx_t of globals.h; scratch is the
32-byte field accumulation buffer. -/
structure TxParserCtx where
  state : TxParseState
  field_offset : Nat
  scratch : List Nat
  parsed : TxParsed
  total_consumed : Nat
  deriving DecidableEq, Repr

/-- Field widths from tx_parser.c (get_field_size). -/
def get_field_size : TxParseState → Nat
  | .version => 1
  | .chain_id => 8
  | .sender => 20
  | .nonce => 8
  | .gas_price => 8
  | .gas_limit => 8
  | .tx_type => 1
  | .recipient => 20
  | .amount => 8
  | _ => 0

/-- Little-endian u64 read from a byte buffer (read_u64_le of tx_parser.c).
The C assembles the value by or-ing the eight uint8 bytes shifted into
disjoint bit ranges, which on byte values below 256 is exactly this
weighted sum. -/
def read_u64_le (l : List Nat) : Nat :=
  l.getD 0 0 + l.getD 1 0 * 2 ^ 8 + l.getD 2 0 * 2 ^ 16 + l.getD 3 0 * 2 ^ 24 +
    l.getD 4 0 * 2 ^ 32 + l.getD 5 0 * 2 ^ 40 + l.getD 6 0 * 2 ^ 48 +
    l.getD 7 0 * 2 ^ 56

/-- Model of memcpy(&buf[off], src, src.length) on a byte buffer. -/
def writeBytes (buf : List Nat) (off : Nat) (src : List Nat) : List Nat :=
  buf.take off ++ src ++ buf.drop (off + src.length)

/-- Fee computation tx_parser_compute_fee of tx_parser.c: the 128-bit
product of gas_price and gas_limit assembled from the four 32x32 partial
products, every uint64 intermediate reduced modulo 2^64 exactly where the C
value can wrap. -/
def tx_parser_compute_fee (p : TxParsed) : TxParsed :=
  let a := p.gas_price
  let b := p.gas_limit
  let a_lo := a % U32
  let a_hi := a / U32
  let b_lo := b % U32
  let b_hi := b / U32
  let lo_lo := a_lo * b_lo
  let lo_hi := a_lo * b_hi
  let hi_lo := a_hi * b_lo
  let hi_hi := a_hi * b_hi
  let mid := (lo_hi + hi_lo) % U64
  let carry_from_mid : Nat := if mid < lo_hi then 1 else 0
  let result_lo := (lo_lo + mid * U32 % U64) % U64
  let carry_to_hi : Nat := if result_lo < lo_lo then 1 else 0
  let result_hi := (hi_hi + mid / U32 + carry_from_mid * U32 + carry_to_hi) % U64
  { p with fee_low := result_lo, fee_high := result_hi,
           fee_overflow := result_hi != 0 }

/-- Field completion step of tx_parser.c (process_complete_field): decodes
the scratch buffer into the parsed record and advances the state; the Bool
is the C return value (false sends the caller to the error state).  The C
writes the decoded value into the record before validating it, which the
returned context preserves. -/
def process_complete_field (ctx : TxParserCtx) : TxParserCtx × Bool :=
  match ctx.state with
  | .version =>
      let v := ctx.scratch.getD 0 0
      let ctx := { ctx with parsed := { ctx.parsed with version := v } }
      if v ≠ 1 then (ctx, false)
      else ({ ctx with state := .chain_id, field_offset := 0 }, true)
  | .chain_id =>
      ({ ctx with parsed := { ctx.parsed with chain_id := read_u64_le ctx.scratch },
                  state := .sender, field_offset := 0 }, true)
  | .sender =>
      ({ ctx with parsed := { ctx.parsed with sender := ctx.scratch.take ADDRESS_LEN },
                  state := .nonce, field_offset := 0 }, true)
  | .nonce =>
      ({ ctx with parsed := { ctx.parsed with nonce := read_u64_le ctx.scratch },
                  state := .gas_price, field_offset := 0 }, true)
  | .gas_price =>
      ({ ctx with parsed := { ctx.parsed with gas_price := read_u64_le ctx.scratch },
                  state := .gas_limit, field_offset := 0 }, true)
  | .gas_limit =>
      ({ ctx with parsed := { ctx.parsed with gas_limit := read_u64_le ctx.scratch },
                  state := .tx_type, field_offset := 0 }, true)
  | .tx_type =>
      let t := ctx.scratch.getD 0 0
      let ctx := { ctx with parsed := { ctx.parsed with tx_type := t } }
      if t = 0 then ({ ctx with state := .recipient, field_offset := 0 }, true)
      else (ctx, false)
  | .recipient =>
      ({ ctx with parsed := { ctx.parsed with recipient := ctx.scratch.take ADDRESS_LEN },
                  state := .amount, field_offset := 0 }, true)
  | .amount =>
      let p := { ctx.parsed with amount := read_u64_le ctx.scratch }
      ({ ctx with parsed := tx_parser_compute_fee p, state := .done,
                  field_offset := 0 }, true)
  | _ => (ctx, false)

/-- Rank of a parser state along the linear field progression; each
successful process_complete_field strictly decreases it (used only to
justify termination of the consume loop). -/
def stateRank : TxParseState → Nat
  | .version => 9
  | .chain_id => 8
  | .sender => 7
  | .nonce => 6
  | .gas_price => 5
  | .gas_limit => 4
  | .tx_type => 3
  | .recipient => 2
  | .amount => 1
  | _ => 0

/-- Main loop of tx_parser_consume (tx_parser.c, lines 157-196): absorbs
bytes of rest into the scratch buffer, at most one field chunk per
iteration, and returns the advanced context together with the number of
bytes consumed by this call. -/
def consumeLoop (ctx : TxParserCtx) (rest : List Nat) : TxParserCtx × Nat :=
  if _hrest : rest = [] then (ctx, 0)
  else if ctx.state = .done ∨ ctx.state = .error then (ctx, 0)
  else if MAX_TX_SIZE ≤ ctx.total_consumed then ({ ctx with state := .error }, 0)
  else
    let fs := get_field_size ctx.state
    if fs = 0 then ({ ctx with state := .error }, 0)
    else
      let needed := fs - ctx.field_offset
      let take := min rest.length needed
      if 32 < ctx.field_offset + take then ({ ctx with state := .error }, 0)
      else
        let ctx1 : TxParserCtx :=
          { ctx with scratch := writeBytes ctx.scratch ctx.field_offset (rest.take take),
                     field_offset := ctx.field_offset + take,
                     total_consumed := ctx.total_consumed + take }
        if _hcomp : fs ≤ ctx1.field_offset then
          match _hp : process_complete_field ctx1 with
          | (ctx2, false) => ({ ctx2 with state := .error }, take)
          | (ctx2, true) =>
              let r := consumeLoop ctx2 (rest.drop take)
              (r.1, take + r.2)
        else
          let r := consumeLoop ctx1 (rest.drop take)
          (r.1, take + r.2)
termination_by (rest.length, stateRank ctx.state)
decreasing_by
  · rcases Nat.eq_zero_or_pos (min rest.length (get_field_size ctx.state - ctx.field_offset)) with hz | hpos
    · rw [hz]
      have hrk : stateRank ctx2.state < stateRank ctx.state := by
        have h := _hp
        cases hst : ctx.state <;>
          simp only [process_complete_field, hst] at h <;>
          (try split at h) <;>
          (first
            | (injection h with h1 h2; exact absurd h2 (by decide))
            | (injection h with h1 h2; rw [← h1]; simp [stateRank]))
      rw [List.drop_zero]
      exact Prod.Lex.right _ hrk
    · apply Prod.Lex.left
      have h1 : 0 < rest.length := by
        cases rest with
        | nil => simp at _hrest
        | cons a l => simp
      simp only [List.length_drop]
      omega
  · apply Prod.Lex.left
    have h1 : 0 < rest.length := by
      cases rest with
      | nil => simp at _hrest
      | cons a l => simp
    have h2 : 0 < min rest.length (get_field_size ctx.state - ctx.field_offset) := by
      simp only [not_le] at _hcomp
      omega
    simp only [List.length_drop]
    omega

/-- Entry point tx_parser_consume of tx_parser.c: no-op in the terminal
states, otherwise runs the loop. -/
def tx_parser_consume (ctx : TxParserCtx) (data : List Nat) : TxParserCtx × Nat :=
  if ctx.state = .done ∨ ctx.state = .error then (ctx, 0)
  else consumeLoop ctx data

/-- Freshly initialized parser context (tx_parser_init: memset 0 then
state := version). -/
def tx_parser_init : TxParserCtx :=
  { state := .version, field_offset := 0, scratch := List.replicate 32 0,
    parsed := zeroParsed, total_consumed := 0 }

/-- All-zero parser context, as left by SECURE_ZEROIZE (state enum value 0
is the init constructor). -/
def zeroParserCtx : TxParserCtx :=
  { state := .init, field_offset := 0, scratch := List.replicate 32 0,
    parsed := zeroParsed, total_consumed := 0 }

def tx_parser_is_done (ctx : TxParserCtx) : Bool :=
  ctx.state = .done

def tx_parser_has_error (ctx : TxParserCtx) : Bool :=
  ctx.state = .error

def tx_parser_get_parsed (ctx : TxParserCtx) : TxParsed :=
  ctx.parsed

/-- Byte-at-a-time reformulation of one pass of the consume loop, used to
reason about chunk boundaries.  On every context reachable from
tx_parser_init this performs exactly what the loop does for one input
byte. -/
def consume1 (ctx : TxParserCtx) (b : Nat) : TxParserCtx :=
  if ctx.state = .done ∨ ctx.state = .error then ctx
  else if MAX_TX_SIZE ≤ ctx.total_consumed then { ctx with state := .error }
  else
    let fs := get_field_size ctx.state
    if fs = 0 then { ctx with state := .error }
    else if 32 < ctx.field_offset + 1 then { ctx with state := .error }
    else
      let ctx1 : TxParserCtx :=
        { ctx with scratch := writeBytes ctx.scratch ctx.field_offset [b],
                   field_offset := ctx.field_offset + 1,
                   total_consumed := ctx.total_consumed + 1 }
      if fs ≤ ctx1.field_offset then
        match process_complete_field ctx1 with
        | (ctx2, false) => { ctx2 with state := .error }
        | (ctx2, true) => ctx2
      else ctx1

/-- Structural invariant of reachable parser contexts: in a non-terminal
state the field offset lies strictly inside the current field, and the
scratch buffer has its declared 32 bytes. -/
def ctxOK (ctx : TxParserCtx) : Prop :=
  (¬(ctx.state = .done ∨ ctx.state = .error) →
      ctx.field_offset < get_field_size ctx.state) ∧
  ctx.scratch.length = 32

/-- Host-visible effect of feeding a list of chunks to the parser in
order, each through tx_parser_consume. -/
def feedChunks (ctx : TxParserCtx) (chunks : List (List Nat)) : TxParserCtx :=
  chunks.foldl (fun c ch => (tx_parser_consume c ch).1) ctx

/-- Number of bytes one iteration of the consume loop absorbs. -/
def takeCount (ctx : TxParserCtx) (rest : List Nat) : Nat :=
  min rest.length (get_field_size ctx.state - ctx.field_offset)

/-- Context after the memcpy of one iteration of the consume loop. -/
def stepCtx (ctx : TxParserCtx) (rest : List Nat) : TxParserCtx :=
  { ctx with
      scratch := writeBytes ctx.scratch ctx.field_offset (rest.take (takeCount ctx rest)),
      field_offset := ctx.field_offset + takeCount ctx rest,
      total_consumed := ctx.total_consumed + takeCount ctx rest }

/-!
Display formatter, tx_display.c.
-/

/-- Digit-collection loop of format_u64_decimal: at most fuel digits
(the C scratch holds 24), least significant first. -/
def decDigitsRevAux : Nat → Nat → List Nat
  | 0, _ => []
  | fuel + 1, v => if v = 0 then [] else v % 10 :: decDigitsRevAux fuel (v / 10)

/-- ASCII digit for a decimal value (the C writes the character 0 plus the
digit). -/
def digitChar (d : Nat) : Char := Char.ofNat (48 + d)

/-- Embedding of format_u64_decimal of tx_display.c; none models the
C return value 0 (error), some s a successful write of s followed by a
terminator. -/
def format_u64_decimal (value : Nat) (out_len : Nat) : Option String :=
  if out_len = 0 then none
  else if value = 0 then
    if out_len < 2 then none else some (String.mk [digitChar 0])
  else
    let ds := decDigitsRevAux 24 value
    if out_len < ds.length + 1 then none
    else some (String.mk (ds.reverse.map digitChar))

def overflowStr : String := "Overflow"

/-- Digit loop of the 128-bit branch of format_fee: divides the pair
(hi, lo) by 10 with the precomputed constants 1844674407370955161 and 6
(2^64 = 1844674407370955161 * 10 + 6); every uint64 intermediate is
reduced modulo 2^64 exactly where the C value can wrap.  At most fuel
digits (the C scratch holds 48), least significant first. -/
def feeDigitsRevAux : Nat → Nat → Nat → List Nat
  | 0, _, _ => []
  | fuel + 1, lo, hi =>
      if lo = 0 ∧ hi = 0 then []
      else
        let hi_div := hi / 10
        let hi_rem := hi % 10
        let lo_contrib := (hi_rem * 6 + lo) % U64
        let lo_div := lo_contrib / 10
        let lo_rem := lo_contrib % 10
        let lo_new := (hi_rem * 1844674407370955161 + lo_div) % U64
        lo_rem :: feeDigitsRevAux fuel lo_new hi_div

/-- Embedding of format_fee of tx_display.c. -/
def format_fee (fee_low fee_high : Nat) (overflow : Bool) (out_len : Nat) :
    Option String :=
  if out_len = 0 then none
  else if overflow then
    if out_len < overflowStr.length + 1 then none else some overflowStr
  else if fee_high = 0 then format_u64_decimal fee_low out_len
  else
    let ds := feeDigitsRevAux 48 fee_low fee_high
    if out_len < ds.length + 1 then none
    else some (String.mk (ds.reverse.map digitChar))

/-!
Base58 address codec, address.c.
-/

def b58AlphabetStr : String := "123456789ABCDEFGHJKLMNPQRSTUVWXYZabcdefghijkmnopqrstuvwxyz"

def b58Alphabet : List Char := b58AlphabetStr.data

/-- Big-endian base-256 value of a byte buffer. -/
def listVal (l : List Nat) : Nat := l.foldl (fun a b => a * 256 + b) 0

/-- Inner long-division pass of base58_encode: divides the buffer, seen as
base-256 big-endian digits, by 58 in place and returns the final carry
(the remainder). -/
def divmod58 : List Nat → Nat → List Nat × Nat
  | [], carry => ([], carry)
  | b :: rest, carry =>
      let c := carry * 256 + b
      let r := divmod58 rest (c % 58)
      (c / 58 :: r.1, r.2)

/-- The C advances its start index past leading zero bytes of the
quotient; on the list model that is dropping leading zeros. -/
def stripZeros (l : List Nat) : List Nat := l.dropWhile (· == 0)

/-- Outer division loop of base58_encode, collecting base-58 digits least
significant first.  Each pass divides the value by 58, so listVal l + 1
passes always suffice (proved below); the fuel only makes the recursion
structural. -/
def b58DigitsAux : Nat → List Nat → List Nat
  | 0, _ => []
  | fuel + 1, l =>
      let l' := stripZeros l
      if l' = [] then []
      else
        let qr := divmod58 l' 0
        qr.2 :: b58DigitsAux fuel qr.1

def b58Digits (l : List Nat) : List Nat := b58DigitsAux (listVal l + 1) l

/-- Embedding of base58_encode of address.c; the list is the input buffer
(its length is the C in_len), none models the C return value 0. -/
def base58_encode (inB : List Nat) (out_len : Nat) : Option String :=
  if out_len = 0 then none
  else if inB.length = 0 then none
  else if 32 < inB.length then none
  else
    let leading_zeros := (inB.takeWhile (· == 0)).length
    let ds := b58Digits inB
    if 45 ≤ ds.length then none
    else if out_len < leading_zeros + ds.length + 1 then none
    else
      some (String.mk (List.replicate leading_zeros '1' ++
        ds.reverse.map (fun d => b58Alphabet.getD d '1')))

/-- sumchain_address_to_base58 of address.c (fixed 20-byte input). -/
def format_address (addr20 : List Nat) (out_len : Nat) : Option String :=
  base58_encode addr20 out_len

/-- Display string lengths from tx_display.h. -/
def TX_DISPLAY_AMOUNT_MAX_LEN : Nat := 32

def TX_DISPLAY_FEE_MAX_LEN : Nat := 40

def TX_DISPLAY_CHAIN_ID_MAX_LEN : Nat := 24

/-- Record tx_display_t: the six formatted strings handed to the UI
collaborator. -/
structure TxDisplay where
  amount : String
  recipient : String
  fee : String
  chain_id : String
  sender : String
  nonce : String
  deriving DecidableEq, Repr

/-- Embedding of tx_display_format of tx_display.c: formats the six
fields in source order, failing if any single formatter fails. -/
def tx_display_format (parsed : TxParsed) : Option TxDisplay :=
  match format_u64_decimal parsed.amount TX_DISPLAY_AMOUNT_MAX_LEN with
  | none => none
  | some amountS =>
    match format_address parsed.recipient ADDRESS_BASE58_MAX_LEN with
    | none => none
    | some recipientS =>
      match format_fee parsed.fee_low parsed.fee_high parsed.fee_overflow
          TX_DISPLAY_FEE_MAX_LEN with
      | none => none
      | some feeS =>
        match format_u64_decimal parsed.chain_id TX_DISPLAY_CHAIN_ID_MAX_LEN with
        | none => none
        | some chainS =>
          match format_address parsed.sender ADDRESS_BASE58_MAX_LEN with
          | none => none
          | some senderS =>
            match format_u64_decimal parsed.nonce TX_DISPLAY_AMOUNT_MAX_LEN with
            | none => none
            | some nonceS =>
              some { amount := amountS, recipient := recipientS, fee := feeS,
                     chain_id := chainS, sender := senderS, nonce := nonceS }

/-!
Key and path handling, crypto.c, and the BLAKE3 wrapper contract of
sum_blake3.h (the hash compression itself is an external primitive,
abstracted by a digest function parameter).
-/

/-- Record bip32_path_t of globals.h: a component count and a 10-entry
uint32 array. -/
structure Bip32Path where
  length : Nat
  path : List Nat
  deriving DecidableEq, Repr

def zeroPath : Bip32Path := ⟨0, List.replicate 10 0⟩

/-- Big-endian u32 read of a 4-byte group (crypto_parse_path assembles
each component from shifted uint8 bytes in disjoint bit ranges). -/
def read_u32_be (l : List Nat) : Nat :=
  l.getD 0 0 * 2 ^ 24 + l.getD 1 0 * 2 ^ 16 + l.getD 2 0 * 2 ^ 8 + l.getD 3 0

/-- Embedding of crypto_parse_path of crypto.c: returns the number of
bytes consumed plus the updated path record (components past the parsed
count keep the previous contents, as the C writes only the first count
entries); none models the C return value 0. -/
def crypto_parse_path (data : List Nat) (p : Bip32Path) : Option (Nat × Bip32Path) :=
  if data.length < 1 then none
  else
    let len := data.getD 0 0
    if len = 0 ∨ MAX_BIP32_PATH_LEN < len then none
    else
      let required := 1 + len * 4
      if data.length < required then none
      else
        let comps := (List.range len).map
          (fun i => read_u32_be ((data.drop (1 + i * 4)).take 4))
        some (required, { length := len, path := comps ++ p.path.drop len })

/-- Embedding of crypto_validate_path of crypto.c: count in range and
every component hardened (high bit set). -/
def crypto_validate_path (p : Bip32Path) : Bool :=
  if p.length = 0 ∨ MAX_BIP32_PATH_LEN < p.length then false
  else (List.range p.length).all (fun i => p.path.getD i 0 &&& 0x80000000 != 0)

/-- Wrapped BLAKE3 context of sum_blake3.h: the initialized guard plus the
stream of absorbed bytes (the hasher state is a function of these). -/
structure Blake3Ctx where
  initialized : Bool
  absorbed : List Nat
  deriving DecidableEq, Repr

/-- All-zero context, as left by SECURE_ZEROIZE. -/
def blake3ZeroCtx : Blake3Ctx := ⟨false, []⟩

def sum_blake3_init (_ctx : Blake3Ctx) : Blake3Ctx := ⟨true, []⟩

/-- sum_blake3_update: a guarded no-op before init, otherwise absorbs. -/
def sum_blake3_update (ctx : Blake3Ctx) (d : List Nat) : Blake3Ctx :=
  if ctx.initialized then { ctx with absorbed := ctx.absorbed ++ d } else ctx

/-- sum_blake3_finalize32: produces the 32-byte digest of the absorbed
stream through the provided primitive and drops the initialized flag; a
guarded no-op before init (the C then leaves the output buffer
untouched, modelled as an empty digest). -/
def sum_blake3_finalize32 (ctx : Blake3Ctx) (hashFn : List Nat → List Nat) :
    List Nat × Blake3Ctx :=
  if ctx.initialized then (hashFn ctx.absorbed, { ctx with initialized := false })
  else ([], ctx)

/-!
Signing session and the sign-transaction handler, globals.h and
apdu_handlers.c.  The UI collaborator, the signing primitive and the hash
compression are parameters, matching the collaborator contracts of the
specification; the APDU pointer arguments are always valid in the
embedding (the dispatcher passes addresses of locals), so the C NULL
guards have no counterpart.
-/

/-- Record sign_session_t of globals.h. -/
structure SignSession where
  initialized : Bool
  path : Bip32Path
  tx_hash_ctx : Blake3Ctx
  parser : TxParserCtx
  total_received : Nat
  last_chunk_received : Bool
  deriving DecidableEq, Repr

/-- All-zero session (every field as memset 0 leaves it). -/
def zeroSession : SignSession :=
  { initialized := false, path := zeroPath, tx_hash_ctx := blake3ZeroCtx,
    parser := zeroParserCtx, total_received := 0, last_chunk_received := false }

/-- reset_sign_session of globals.h zeroizes the global session; its
result is the all-zero session value. -/
def reset_sign_session : SignSession := zeroSession

/-- Relevant part of the apdu_t record: P1, P2 and the Lc-byte data
buffer (Lc is the length of the list). -/
structure Apdu where
  p1 : Nat
  p2 : Nat
  data : List Nat
  deriving DecidableEq, Repr

/-- Enum ui_result_t of globals.h. -/
inductive UIResult where
  | none
  | approved
  | rejected
  deriving DecidableEq, Repr

/-- Status word, response bytes and post-call session of one
handle_sign_tx invocation. -/
structure SignResult where
  status : Nat
  response : List Nat
  session : SignSession
  deriving DecidableEq, Repr

/-- Streaming part of handle_sign_tx (apdu_handlers.c lines 160-256):
first-chunk and continuation handling up to, but excluding, the final
common tail.  inl is an early error return, inr the session that
continues into the tail. -/
def sign_tx_stream_arm (session : SignSession) (apdu : Apdu) :
    SignResult ⊕ SignSession :=
  if apdu.p1 = P1_FIRST_CHUNK then
    let s0 := reset_sign_session
    if apdu.data.length < 1 then
      .inl { status := SW_WRONG_LENGTH, response := [], session := s0 }
    else
      match crypto_parse_path apdu.data s0.path with
      | Option.none =>
          .inl { status := SW_INVALID_PATH, response := [], session := reset_sign_session }
      | Option.some pr =>
        if crypto_validate_path pr.2 = false then
          .inl { status := SW_INVALID_PATH, response := [], session := reset_sign_session }
        else
          let s1 : SignSession :=
            { s0 with path := pr.2,
                      tx_hash_ctx := sum_blake3_init s0.tx_hash_ctx,
                      parser := tx_parser_init,
                      initialized := true,
                      total_received := 0,
                      last_chunk_received := apdu.p2 != P2_MORE_CHUNKS }
          let tx_data := apdu.data.drop pr.1
          if 0 < tx_data.length then
            if MAX_TX_SIZE < s1.total_received + tx_data.length then
              .inl { status := SW_TX_TOO_LARGE, response := [], session := reset_sign_session }
            else
              let s2 := { s1 with tx_hash_ctx := sum_blake3_update s1.tx_hash_ctx tx_data }
              let pc := tx_parser_consume s2.parser tx_data
              let s3 := { s2 with parser := pc.1 }
              if pc.2 ≠ tx_data.length ∨ tx_parser_has_error s3.parser = true then
                .inl { status := SW_TX_PARSE_ERROR, response := [], session := reset_sign_session }
              else .inr { s3 with total_received := s3.total_received + tx_data.length }
          else .inr s1
  else
    if session.initialized = false then
      .inl { status := SW_SESSION_ERROR, response := [], session := session }
    else if session.last_chunk_received = true then
      .inl { status := SW_SESSION_ERROR, response := [], session := reset_sign_session }
    else
      let s1 := { session with last_chunk_received := apdu.p2 != P2_MORE_CHUNKS }
      if 0 < apdu.data.length then
        if MAX_TX_SIZE < s1.total_received + apdu.data.length then
          .inl { status := SW_TX_TOO_LARGE, response := [], session := reset_sign_session }
        else
          let s2 := { s1 with tx_hash_ctx := sum_blake3_update s1.tx_hash_ctx apdu.data }
          let pc := tx_parser_consume s2.parser apdu.data
          let s3 := { s2 with parser := pc.1 }
          if pc.2 ≠ apdu.data.length ∨ tx_parser_has_error s3.parser = true then
            .inl { status := SW_TX_PARSE_ERROR, response := [], session := reset_sign_session }
          else .inr { s3 with total_received := s3.total_received + apdu.data.length }
      else .inr s1

/-- Embedding of handle_sign_tx of apdu_handlers.c.  ui is the display
collaborator (handed the formatted strings, returning one of the three
ui_result_t values), signO the Ed25519 signing primitive over the
session path and the 32-byte digest, hashFn the BLAKE3 digest of an
absorbed byte stream. -/
def handle_sign_tx (session : SignSession) (apdu : Apdu)
    (ui : TxDisplay → UIResult)
    (signO : Bip32Path → List Nat → Option (List Nat))
    (hashFn : List Nat → List Nat) : SignResult :=
  if apdu.p1 ≠ P1_FIRST_CHUNK ∧ apdu.p1 ≠ P1_MORE_CHUNK then
    { status := SW_INVALID_P1P2, response := [], session := reset_sign_session }
  else if apdu.p2 ≠ P2_LAST_CHUNK ∧ apdu.p2 ≠ P2_MORE_CHUNKS then
    { status := SW_INVALID_P1P2, response := [], session := reset_sign_session }
  else
    match sign_tx_stream_arm session apdu with
    | .inl r => r
    | .inr s =>
      if apdu.p2 = P2_MORE_CHUNKS then
        { status := SW_OK, response := [], session := s }
      else if tx_parser_is_done s.parser = false then
        { status := SW_TX_PARSE_ERROR, response := [], session := reset_sign_session }
      else
        let parsed := tx_parser_get_parsed s.parser
        match tx_display_format parsed with
        | Option.none =>
            { status := SW_INTERNAL_ERROR, response := [], session := reset_sign_session }
        | Option.some display =>
          if parsed.fee_overflow then
            { status := SW_TX_OVERFLOW, response := [], session := reset_sign_session }
          else
            match ui display with
            | .approved =>
              let fr := sum_blake3_finalize32 s.tx_hash_ctx hashFn
              match signO s.path fr.1 with
              | Option.none =>
                  { status := SW_INTERNAL_ERROR, response := [], session := reset_sign_session }
              | Option.some sig =>
                  { status := SW_OK, response := sig, session := reset_sign_session }
            | _ => { status := SW_USER_REJECTED, response := [], session := reset_sign_session }

/-- Status word and response of one handle_get_public_key invocation. -/
structure PubKeyResult where
  status : Nat
  response : List Nat
  deriving DecidableEq, Repr

/-- Embedding of handle_get_public_key of apdu_handlers.c.  derive is the
key provider primitive; pathInit is the arbitrary initial content of the
uninitialized stack local the C parses the path into. -/
def handle_get_public_key (apdu : Apdu)
    (derive : Bip32Path → Option (List Nat)) (pathInit : Bip32Path) : PubKeyResult :=
  if apdu.data.length < 1 then { status := SW_WRONG_LENGTH, response := [] }
  else
    match crypto_parse_path apdu.data pathInit with
    | Option.none => { status := SW_INVALID_PATH, response := [] }
    | Option.some pr =>
      if crypto_validate_path pr.2 = false then
        { status := SW_INVALID_PATH, response := [] }
      else
        match derive pr.2 with
        | Option.none => { status := SW_INTERNAL_ERROR, response := [] }
        | Option.some pk => { status := SW_OK, response := pk }

/-- Invariant of the global session across handler invocations: while no
signing session is active the whole block is zeroized.  It holds of the
boot state and is preserved by every handle_sign_tx call (proved below). -/
def session_inv (s : SignSession) : Prop := s.initialized = false → s = zeroSession

/-- Decimal interpretation of a display string (digit characters read
most significant first). -/
def decInterp (s : String) : Nat :=
  s.data.foldl (fun a c => 10 * a + (c.toNat - 48)) 0

/-- Reference decimal rendering of a Nat, through the Mathlib digit
expansion. -/
def decString (v : Nat) : String :=
  if v = 0 then String.mk [digitChar 0]
  else String.mk ((Nat.digits 10 v).reverse.map digitChar)

/-- Record holding exactly the fields a Transfer wire encoding carries
(fee fields still unset), used to state what the parser must decode. -/
def mkTransferParsed (cb sb nb gpb glb rb ab : List Nat) : TxParsed :=
  { version := 1, chain_id := read_u64_le cb, sender := sb,
    nonce := read_u64_le nb, gas_price := read_u64_le gpb,
    gas_limit := read_u64_le glb, tx_type := 0, recipient := rb,
    amount := read_u64_le ab, fee_overflow := false, fee_low := 0,
    fee_high := 0 }

/-- Concrete parsed record with both gas operands at the uint64 maximum
(scenario S3 of the specification). -/
def feeMaxParsed : TxParsed :=
  { zeroParsed with gas_price := 18446744073709551615,
                    gas_limit := 18446744073709551615 }

/-- Projection of handle_sign_tx up to its approval step: the TxDisplay
value handed to the UI collaborator when the run reaches the
tx_display_show_approval call, none when it exits earlier.  It follows
the branch structure of the handler verbatim (the pre-UI part depends on
no collaborator). -/
def sign_tx_ui_display (session : SignSession) (apdu : Apdu) : Option TxDisplay :=
  if apdu.p1 ≠ P1_FIRST_CHUNK ∧ apdu.p1 ≠ P1_MORE_CHUNK then none
  else if apdu.p2 ≠ P2_LAST_CHUNK ∧ apdu.p2 ≠ P2_MORE_CHUNKS then none
  else
    match sign_tx_stream_arm session apdu with
    | .inl _ => none
    | .inr s =>
      if apdu.p2 = P2_MORE_CHUNKS then none
      else if tx_parser_is_done s.parser = false then none
      else
        let parsed := tx_parser_get_parsed s.parser
        match tx_display_format parsed with
        | Option.none => none
        | Option.some display =>
          if parsed.fee_overflow then none else some display

/-- UI collaborator that always answers reject. -/
def uiReject : TxDisplay → UIResult := fun _ => UIResult.rejected

/-- Signing collaborator that always fails. -/
def signNone : Bip32Path → List Nat → Option (List Nat) := fun _ _ => Option.none

/-- Trivial digest primitive for concrete runs. -/
def hashNil : List Nat → List Nat := fun _ => []

/-- Key provider returning a fixed 32-byte key. -/
def deriveConst : Bip32Path → Option (List Nat) :=
  fun _ => Option.some (List.replicate 32 7)

/-- A fully parsed Transfer record with small field values. -/
def doneParsedW : TxParsed :=
  { version := 1, chain_id := 7, sender := List.replicate 20 2, nonce := 3,
    gas_price := 2, gas_limit := 3, tx_type := 0,
    recipient := List.replicate 20 4, amount := 5,
    fee_overflow := false, fee_low := 6, fee_high := 0 }

/-- A parser context that has consumed a whole valid Transfer. -/
def doneCtxW : TxParserCtx :=
  { state := TxParseState.done, field_offset := 0, scratch := List.replicate 32 0,
    parsed := doneParsedW, total_consumed := 82 }

/-- A mid-stream session whose parser is already done, awaiting the last
chunk. -/
def doneSessionW : SignSession :=
  { initialized := true, path := ⟨1, 0x8000002C :: List.replicate 9 0⟩,
    tx_hash_ctx := ⟨true, [1, 2, 3]⟩, parser := doneCtxW,
    total_received := 82, last_chunk_received := false }

/-- An empty final chunk: P1 continuation, P2 last. -/
def lastApdu : Apdu := ⟨P1_MORE_CHUNK, P2_LAST_CHUNK, []⟩

/-- First chunk carrying exactly a one-component hardened path and
announcing more chunks. -/
def c2Apdu : Apdu := ⟨0, 0x80, [1, 0x80, 0, 0, 0x2C]⟩

/-- The session left streaming by that first chunk. -/
def streamingSession : SignSession :=
  (handle_sign_tx zeroSession c2Apdu uiReject signNone hashNil).session

/-!
Theorems.  First the 128-bit fee multiplication (claim C4), then the
parser stream lemmas (claims C5, C6), the display formatter (C7), the
Base58 codec (C8), and the session/handler claims (C1, C2, C3, C9, C10).
-/

/-- Carry-propagation core of tx_parser_compute_fee: over the four 32-bit
halves, the assembled high and low words recover the exact product. -/
theorem fee_arith (al ah bl bh : Nat)
    (hal : al < U32) (hah : ah < U32) (hbl : bl < U32) (hbh : bh < U32) :
    (ah * bh + (al * bh + ah * bl) % U64 / U32 +
        (if (al * bh + ah * bl) % U64 < al * bh then 1 else 0) * U32 +
        (if (al * bl + (al * bh + ah * bl) % U64 * U32 % U64) % U64 < al * bl
          then 1 else 0)) % U64 * U64 +
      (al * bl + (al * bh + ah * bl) % U64 * U32 % U64) % U64
    = (U32 * ah + al) * (U32 * bh + bl) := by
  have hexp : (U32 * ah + al) * (U32 * bh + bl)
      = U64 * (ah * bh) + U32 * (al * bh) + U32 * (ah * bl) + al * bl := by
    have h : U64 = U32 * U32 := by norm_num [U64, U32]
    rw [h]; ring
  rw [hexp]
  have hal9 : al ≤ 4294967295 := by simp only [U32] at hal; omega
  have hah9 : ah ≤ 4294967295 := by simp only [U32] at hah; omega
  have hbl9 : bl ≤ 4294967295 := by simp only [U32] at hbl; omega
  have hbh9 : bh ≤ 4294967295 := by simp only [U32] at hbh; omega
  have bll : al * bl ≤ 4294967295 * 4294967295 := Nat.mul_le_mul hal9 hbl9
  have blh : al * bh ≤ 4294967295 * 4294967295 := Nat.mul_le_mul hal9 hbh9
  have bhl : ah * bl ≤ 4294967295 * 4294967295 := Nat.mul_le_mul hah9 hbl9
  have bhh : ah * bh ≤ 4294967295 * 4294967295 := Nat.mul_le_mul hah9 hbh9
  simp only [U64, U32] at bll blh bhl bhh ⊢
  split_ifs <;> omega

/-- C4: for all unsigned 64-bit gas_price and gas_limit,
tx_parser_compute_fee sets (fee_high, fee_low) to exactly the 128-bit
product (fee_low the low 64 bits, fee_high the high 64 bits), and sets
fee_overflow to true if and only if fee_high is non-zero. -/
theorem c4_compute_fee_exact (p : TxParsed)
    (ha : p.gas_price < U64) (hb : p.gas_limit < U64) :
    (tx_parser_compute_fee p).fee_high * U64 + (tx_parser_compute_fee p).fee_low
      = p.gas_price * p.gas_limit ∧
    ((tx_parser_compute_fee p).fee_overflow = true ↔
      (tx_parser_compute_fee p).fee_high ≠ 0) := by
  refine ⟨?_, by simp [tx_parser_compute_fee]⟩
  have h32 : (0 : Nat) < U32 := by norm_num [U32]
  have hU : U64 = U32 * U32 := by norm_num [U64, U32]
  have h := fee_arith (p.gas_price % U32) (p.gas_price / U32)
      (p.gas_limit % U32) (p.gas_limit / U32)
      (Nat.mod_lt _ h32) (Nat.div_lt_of_lt_mul (hU ▸ ha))
      (Nat.mod_lt _ h32) (Nat.div_lt_of_lt_mul (hU ▸ hb))
  rw [Nat.div_add_mod, Nat.div_add_mod] at h
  exact h

/-- Witness for C4 at the all-ones operands. -/
theorem c4_compute_fee_exact_witness :
    feeMaxParsed.gas_price < U64 ∧ feeMaxParsed.gas_limit < U64 ∧
    ((tx_parser_compute_fee feeMaxParsed).fee_high * U64 +
        (tx_parser_compute_fee feeMaxParsed).fee_low
      = feeMaxParsed.gas_price * feeMaxParsed.gas_limit ∧
    ((tx_parser_compute_fee feeMaxParsed).fee_overflow = true ↔
      (tx_parser_compute_fee feeMaxParsed).fee_high ≠ 0)) :=
  ⟨by decide, by decide,
    c4_compute_fee_exact feeMaxParsed (by decide) (by decide)⟩

theorem consumeLoop_nil (ctx : TxParserCtx) : consumeLoop ctx [] = (ctx, 0) := by
  rw [consumeLoop]; simp

theorem consumeLoop_terminal (ctx : TxParserCtx) (rest : List Nat)
    (h : ctx.state = .done ∨ ctx.state = .error) :
    consumeLoop ctx rest = (ctx, 0) := by
  rw [consumeLoop]
  rcases eq_or_ne rest [] with hr | hr
  · simp [hr]
  · simp [hr, h]

theorem fs_le_20 (s : TxParseState) : get_field_size s ≤ 20 := by
  cases s <;> simp [get_field_size]

theorem consumeLoop_step_incomplete (ctx : TxParserCtx) (rest : List Nat)
    (hne : rest ≠ [])
    (hterm : ¬(ctx.state = .done ∨ ctx.state = .error))
    (hmaxlt : ¬MAX_TX_SIZE ≤ ctx.total_consumed)
    (hoff' : ctx.field_offset < get_field_size ctx.state)
    (hlt : ctx.field_offset + takeCount ctx rest < get_field_size ctx.state) :
    consumeLoop ctx rest =
      ((consumeLoop (stepCtx ctx rest) (rest.drop (takeCount ctx rest))).1,
       takeCount ctx rest +
         (consumeLoop (stepCtx ctx rest) (rest.drop (takeCount ctx rest))).2) := by
  have hfs20 : get_field_size ctx.state ≤ 20 := fs_le_20 _
  have hfs0 : ¬(get_field_size ctx.state = 0) := by omega
  have h32 : ¬(32 < ctx.field_offset +
      min rest.length (get_field_size ctx.state - ctx.field_offset)) := by omega
  simp only [takeCount, stepCtx] at *
  conv_lhs => rw [consumeLoop]
  rw [dif_neg hne, if_neg hterm, if_neg hmaxlt]
  simp only [if_neg hfs0, if_neg h32]
  rw [dif_neg (by simpa using Nat.not_le.mpr hlt)]


theorem consumeLoop_step_complete_false (ctx ctx2 : TxParserCtx) (rest : List Nat)
    (hne : rest ≠ [])
    (hterm : ¬(ctx.state = .done ∨ ctx.state = .error))
    (hmaxlt : ¬MAX_TX_SIZE ≤ ctx.total_consumed)
    (hoff' : ctx.field_offset < get_field_size ctx.state)
    (hge : get_field_size ctx.state ≤ ctx.field_offset + takeCount ctx rest)
    (hp : process_complete_field (stepCtx ctx rest) = (ctx2, false)) :
    consumeLoop ctx rest = ({ ctx2 with state := .error }, takeCount ctx rest) := by
  have hfs20 : get_field_size ctx.state ≤ 20 := fs_le_20 _
  have hfs0 : ¬(get_field_size ctx.state = 0) := by omega
  have h32 : ¬(32 < ctx.field_offset +
      min rest.length (get_field_size ctx.state - ctx.field_offset)) := by
    simp only [takeCount] at hge
    omega
  simp only [takeCount, stepCtx] at *
  conv_lhs => rw [consumeLoop]
  rw [dif_neg hne, if_neg hterm, if_neg hmaxlt]
  simp only [if_neg hfs0, if_neg h32]
  rw [dif_pos (by simpa using hge)]
  split
  · rename_i c2' heq
    rw [hp] at heq
    injection heq with he1 he2
    rw [he1]
  · rename_i c2' heq
    rw [hp] at heq
    injection heq with he1 he2
    cases he2

theorem consumeLoop_step_complete_true (ctx ctx2 : TxParserCtx) (rest : List Nat)
    (hne : rest ≠ [])
    (hterm : ¬(ctx.state = .done ∨ ctx.state = .error))
    (hmaxlt : ¬MAX_TX_SIZE ≤ ctx.total_consumed)
    (hoff' : ctx.field_offset < get_field_size ctx.state)
    (hge : get_field_size ctx.state ≤ ctx.field_offset + takeCount ctx rest)
    (hp : process_complete_field (stepCtx ctx rest) = (ctx2, true)) :
    consumeLoop ctx rest =
      ((consumeLoop ctx2 (rest.drop (takeCount ctx rest))).1,
       takeCount ctx rest +
         (consumeLoop ctx2 (rest.drop (takeCount ctx rest))).2) := by
  have hfs20 : get_field_size ctx.state ≤ 20 := fs_le_20 _
  have hfs0 : ¬(get_field_size ctx.state = 0) := by omega
  have h32 : ¬(32 < ctx.field_offset +
      min rest.length (get_field_size ctx.state - ctx.field_offset)) := by
    simp only [takeCount] at hge
    omega
  simp only [takeCount, stepCtx] at *
  conv_lhs => rw [consumeLoop]
  rw [dif_neg hne, if_neg hterm, if_neg hmaxlt]
  simp only [if_neg hfs0, if_neg h32]
  rw [dif_pos (by simpa using hge)]
  split
  · rename_i c2' heq
    rw [hp] at heq
    injection heq with he1 he2
    cases he2
  · rename_i c2' heq
    rw [hp] at heq
    injection heq with he1 he2
    rw [he1]


theorem takeCount_one (ctx : TxParserCtx) (b : Nat)
    (hoff' : ctx.field_offset < get_field_size ctx.state) :
    takeCount ctx [b] = 1 := by
  simp only [takeCount, List.length_singleton]
  omega

theorem consume1_incomplete (ctx : TxParserCtx) (b : Nat)
    (hterm : ¬(ctx.state = .done ∨ ctx.state = .error))
    (hmaxlt : ¬MAX_TX_SIZE ≤ ctx.total_consumed)
    (hoff' : ctx.field_offset < get_field_size ctx.state)
    (hlt : ctx.field_offset + 1 < get_field_size ctx.state) :
    consume1 ctx b = stepCtx ctx [b] := by
  have h32 : ¬(32 < ctx.field_offset + 1) := by
    have := fs_le_20 ctx.state
    omega
  rw [consume1]
  rw [if_neg hterm, if_neg hmaxlt]
  rw [if_neg (by omega : ¬(get_field_size ctx.state = 0)), if_neg h32]
  rw [if_neg (by simpa using Nat.not_le.mpr hlt)]
  simp [stepCtx, takeCount_one ctx b hoff']

theorem consume1_complete_false (ctx ctx2 : TxParserCtx) (b : Nat)
    (hterm : ¬(ctx.state = .done ∨ ctx.state = .error))
    (hmaxlt : ¬MAX_TX_SIZE ≤ ctx.total_consumed)
    (hoff' : ctx.field_offset < get_field_size ctx.state)
    (hge : get_field_size ctx.state ≤ ctx.field_offset + 1)
    (hp : process_complete_field (stepCtx ctx [b]) = (ctx2, false)) :
    consume1 ctx b = { ctx2 with state := .error } := by
  have h32 : ¬(32 < ctx.field_offset + 1) := by
    have := fs_le_20 ctx.state
    omega
  simp only [stepCtx, takeCount_one ctx b hoff', List.take_succ_cons, List.take_zero] at hp
  rw [consume1]
  rw [if_neg hterm, if_neg hmaxlt]
  rw [if_neg (by omega : ¬(get_field_size ctx.state = 0)), if_neg h32]
  rw [if_pos (by simpa using hge)]
  split
  · rename_i c2' heq
    rw [hp] at heq
    injection heq with he1 he2
    rw [he1]
  · rename_i c2' heq
    rw [hp] at heq
    injection heq with he1 he2
    cases he2

theorem consume1_complete_true (ctx ctx2 : TxParserCtx) (b : Nat)
    (hterm : ¬(ctx.state = .done ∨ ctx.state = .error))
    (hmaxlt : ¬MAX_TX_SIZE ≤ ctx.total_consumed)
    (hoff' : ctx.field_offset < get_field_size ctx.state)
    (hge : get_field_size ctx.state ≤ ctx.field_offset + 1)
    (hp : process_complete_field (stepCtx ctx [b]) = (ctx2, true)) :
    consume1 ctx b = ctx2 := by
  have h32 : ¬(32 < ctx.field_offset + 1) := by
    have := fs_le_20 ctx.state
    omega
  simp only [stepCtx, takeCount_one ctx b hoff', List.take_succ_cons, List.take_zero] at hp
  rw [consume1]
  rw [if_neg hterm, if_neg hmaxlt]
  rw [if_neg (by omega : ¬(get_field_size ctx.state = 0)), if_neg h32]
  rw [if_pos (by simpa using hge)]
  split
  · rename_i c2' heq
    rw [hp] at heq
    injection heq with he1 he2
    cases he2
  · rename_i c2' heq
    rw [hp] at heq
    injection heq with he1 he2
    rw [he1]


theorem writeBytes_nil (buf : List Nat) (off : Nat) :
    writeBytes buf off [] = buf := by
  simp [writeBytes]

theorem writeBytes_length (buf : List Nat) (off : Nat) (src : List Nat)
    (h : off + src.length ≤ buf.length) :
    (writeBytes buf off src).length = buf.length := by
  simp [writeBytes]
  omega

theorem writeBytes_split (buf : List Nat) (off : Nat) (c1 c2 : List Nat)
    (h : off + c1.length ≤ buf.length) :
    writeBytes buf off (c1 ++ c2) =
      writeBytes (writeBytes buf off c1) (off + c1.length) c2 := by
  simp only [writeBytes, List.length_append]
  have hA : (buf.take off).length = off := by
    simp
    omega
  have hc : (buf.take off ++ c1).length = off + c1.length := by
    simp [hA]
  have h1 : (buf.take off ++ c1 ++ buf.drop (off + c1.length)).take (off + c1.length)
      = buf.take off ++ c1 := by
    rw [← hc, List.take_left]
  have h2 : (buf.take off ++ c1 ++ buf.drop (off + c1.length)).drop (off + c1.length + c2.length)
      = buf.drop (off + (c1.length + c2.length)) := by
    have hx : off + c1.length + c2.length = (buf.take off ++ c1).length + c2.length := by
      rw [hc]
    rw [hx, List.drop_append, List.drop_drop]
    congr 1
    omega
  rw [h1, h2]
  simp [List.append_assoc]

theorem stepCtx_cons (ctx : TxParserCtx) (b : Nat) (rest : List Nat)
    (hscr : ctx.scratch.length = 32)
    (hlt : ctx.field_offset + 1 < get_field_size ctx.state) :
    stepCtx ctx (b :: rest) = stepCtx (stepCtx ctx [b]) rest := by
  have hf20 : get_field_size ctx.state ≤ 20 := fs_le_20 _
  simp only [stepCtx, takeCount, List.length_cons, List.length_singleton,
    List.length_nil, Nat.zero_add]
  have h1 : min 1 (get_field_size ctx.state - ctx.field_offset) = 1 := by omega
  rw [h1]
  have h2 : min (rest.length + 1) (get_field_size ctx.state - ctx.field_offset)
      = min rest.length (get_field_size ctx.state - (ctx.field_offset + 1)) + 1 := by
    omega
  rw [h2]
  simp only [List.take_succ_cons, List.take_zero]
  rw [← List.singleton_append]
  rw [writeBytes_split ctx.scratch ctx.field_offset [b] _ (by simp; omega)]
  simp only [List.length_singleton, TxParserCtx.mk.injEq]
  exact ⟨trivial, by omega, trivial, trivial, by omega⟩


theorem consume1_terminal (ctx : TxParserCtx) (b : Nat)
    (h : ctx.state = .done ∨ ctx.state = .error) : consume1 ctx b = ctx := by
  simp [consume1, h]

theorem consumeLoop_cons (ctx : TxParserCtx) (b : Nat) (rest : List Nat)
    (hok : ctxOK ctx) (hmax : ctx.total_consumed + rest.length + 1 ≤ MAX_TX_SIZE) :
    (consumeLoop ctx (b :: rest)).1 = (consumeLoop (consume1 ctx b) rest).1 := by
  obtain ⟨hoffI, hscr⟩ := hok
  by_cases hterm : ctx.state = .done ∨ ctx.state = .error
  · rw [consumeLoop_terminal _ _ hterm, consume1_terminal _ _ hterm,
      consumeLoop_terminal _ _ hterm]
  · have hoff' := hoffI hterm
    have hmaxlt : ¬MAX_TX_SIZE ≤ ctx.total_consumed := by
      simp only [MAX_TX_SIZE] at hmax ⊢
      omega
    by_cases hnd1 : get_field_size ctx.state ≤ ctx.field_offset + 1
    · have ht1 : takeCount ctx (b :: rest) = 1 := by
        simp only [takeCount, List.length_cons]
        omega
      have hstep : stepCtx ctx (b :: rest) = stepCtx ctx [b] := by
        simp only [stepCtx, ht1, takeCount_one ctx b hoff', List.take_succ_cons,
          List.take_zero]
      have hge : get_field_size ctx.state ≤ ctx.field_offset + takeCount ctx (b :: rest) := by
        rw [ht1]
        exact hnd1
      rcases hpc : process_complete_field (stepCtx ctx [b]) with ⟨c2, fl⟩
      cases fl
      · rw [consumeLoop_step_complete_false ctx c2 (b :: rest) (by simp) hterm hmaxlt
          hoff' hge (by rw [hstep]; exact hpc)]
        rw [consume1_complete_false ctx c2 b hterm hmaxlt hoff' hnd1 hpc]
        rw [consumeLoop_terminal _ rest (Or.inr rfl)]
      · rw [consumeLoop_step_complete_true ctx c2 (b :: rest) (by simp) hterm hmaxlt
          hoff' hge (by rw [hstep]; exact hpc)]
        rw [consume1_complete_true ctx c2 b hterm hmaxlt hoff' hnd1 hpc]
        have hd : (b :: rest).drop (takeCount ctx (b :: rest)) = rest := by
          rw [ht1]
          simp
        rw [hd]
    · have hlt1 : ctx.field_offset + 1 < get_field_size ctx.state := by omega
      rw [consume1_incomplete ctx b hterm hmaxlt hoff' hlt1]
      by_cases hrest : rest = []
      · subst hrest
        have hltA : ctx.field_offset + takeCount ctx [b] < get_field_size ctx.state := by
          rw [takeCount_one ctx b hoff']
          exact hlt1
        rw [consumeLoop_step_incomplete ctx [b] (by simp) hterm hmaxlt hoff' hltA]
        rw [takeCount_one ctx b hoff']
        simp [consumeLoop_nil]
      · have hkey := stepCtx_cons ctx b rest hscr hlt1
        have hsb_state : (stepCtx ctx [b]).state = ctx.state := rfl
        have hsb_off : (stepCtx ctx [b]).field_offset = ctx.field_offset + 1 := by
          simp [stepCtx, takeCount_one ctx b hoff']
        have hsb_tot : (stepCtx ctx [b]).total_consumed = ctx.total_consumed + 1 := by
          simp [stepCtx, takeCount_one ctx b hoff']
        have hterm' : ¬((stepCtx ctx [b]).state = .done ∨ (stepCtx ctx [b]).state = .error) := by
          rw [hsb_state]
          exact hterm
        have hr1 : 1 ≤ rest.length := by
          cases rest with
          | nil => simp at hrest
          | cons x xs => simp
        have hmax' : ¬MAX_TX_SIZE ≤ (stepCtx ctx [b]).total_consumed := by
          rw [hsb_tot]
          simp only [MAX_TX_SIZE] at hmax ⊢
          omega
        have hoff'' : (stepCtx ctx [b]).field_offset < get_field_size (stepCtx ctx [b]).state := by
          rw [hsb_off, hsb_state]
          exact hlt1
        have htcr : takeCount ctx (b :: rest) = takeCount (stepCtx ctx [b]) rest + 1 := by
          simp only [takeCount, hsb_state, hsb_off, List.length_cons]
          omega
        have hdrop : (b :: rest).drop (takeCount ctx (b :: rest)) =
            rest.drop (takeCount (stepCtx ctx [b]) rest) := by
          rw [htcr]
          simp
        by_cases hcomp : get_field_size ctx.state ≤ ctx.field_offset + takeCount ctx (b :: rest)
        · have hcomp' : get_field_size (stepCtx ctx [b]).state ≤
              (stepCtx ctx [b]).field_offset + takeCount (stepCtx ctx [b]) rest := by
            rw [hsb_state, hsb_off]
            omega
          rcases hpc : process_complete_field (stepCtx ctx (b :: rest)) with ⟨c2, fl⟩
          cases fl
          · rw [consumeLoop_step_complete_false ctx c2 (b :: rest) (by simp) hterm hmaxlt
              hoff' hcomp hpc]
            rw [consumeLoop_step_complete_false (stepCtx ctx [b]) c2 rest hrest hterm'
              hmax' hoff'' hcomp' (by rw [← hkey]; exact hpc)]
          · rw [consumeLoop_step_complete_true ctx c2 (b :: rest) (by simp) hterm hmaxlt
              hoff' hcomp hpc]
            rw [consumeLoop_step_complete_true (stepCtx ctx [b]) c2 rest hrest hterm'
              hmax' hoff'' hcomp' (by rw [← hkey]; exact hpc)]
            rw [hdrop]
        · have hlt' : ctx.field_offset + takeCount ctx (b :: rest) < get_field_size ctx.state := by
            omega
          have hlt'' : (stepCtx ctx [b]).field_offset + takeCount (stepCtx ctx [b]) rest <
              get_field_size (stepCtx ctx [b]).state := by
            rw [hsb_state, hsb_off]
            omega
          rw [consumeLoop_step_incomplete ctx (b :: rest) (by simp) hterm hmaxlt hoff' hlt']
          rw [consumeLoop_step_incomplete (stepCtx ctx [b]) rest hrest hterm' hmax'
            hoff'' hlt'']
          rw [hkey, hdrop]


theorem tx_parser_consume_eq_loop (ctx : TxParserCtx) (data : List Nat) :
    tx_parser_consume ctx data = consumeLoop ctx data := by
  unfold tx_parser_consume
  split_ifs with h
  · rw [consumeLoop_terminal ctx data h]
  · rfl

theorem process_facts (c c2 : TxParserCtx) (fl : Bool)
    (h : process_complete_field c = (c2, fl)) :
    c2.scratch = c.scratch ∧ c2.total_consumed = c.total_consumed ∧
      (fl = true → c2.field_offset = 0 ∧
        (¬(c2.state = .done ∨ c2.state = .error) → 0 < get_field_size c2.state)) := by
  cases hst : c.state <;>
    simp only [process_complete_field, hst] at h <;>
    (try split at h) <;>
    (injection h with h1 h2; rw [← h1, ← h2]) <;>
    simp [get_field_size]

theorem consume1_ok_total (ctx : TxParserCtx) (b : Nat) (hok : ctxOK ctx)
    (hmaxlt : ctx.total_consumed < MAX_TX_SIZE) :
    ctxOK (consume1 ctx b) ∧
      (consume1 ctx b).total_consumed ≤ ctx.total_consumed + 1 := by
  obtain ⟨hoffI, hscr⟩ := hok
  by_cases hterm : ctx.state = .done ∨ ctx.state = .error
  · rw [consume1_terminal ctx b hterm]
    exact ⟨⟨hoffI, hscr⟩, by omega⟩
  · have hoff' := hoffI hterm
    have hmaxlt' : ¬MAX_TX_SIZE ≤ ctx.total_consumed := by omega
    have hf20 : get_field_size ctx.state ≤ 20 := fs_le_20 _
    have hsb_scr : (stepCtx ctx [b]).scratch.length = 32 := by
      simp only [stepCtx, takeCount_one ctx b hoff', List.take_succ_cons, List.take_zero]
      rw [writeBytes_length]
      · exact hscr
      · simp
        omega
    by_cases hnd1 : get_field_size ctx.state ≤ ctx.field_offset + 1
    · rcases hpc : process_complete_field (stepCtx ctx [b]) with ⟨c2, fl⟩
      obtain ⟨hps, hpt, hptrue⟩ := process_facts _ _ _ hpc
      have hsb_tot : (stepCtx ctx [b]).total_consumed = ctx.total_consumed + 1 := by
        simp [stepCtx, takeCount_one ctx b hoff']
      cases fl
      · rw [consume1_complete_false ctx c2 b hterm hmaxlt' hoff' hnd1 hpc]
        refine ⟨⟨by simp, ?_⟩, ?_⟩
        · simpa [hps] using hsb_scr
        · simp only []
          omega
      · rw [consume1_complete_true ctx c2 b hterm hmaxlt' hoff' hnd1 hpc]
        obtain ⟨hpo, hpfs⟩ := hptrue rfl
        refine ⟨⟨?_, by rw [hps]; exact hsb_scr⟩, by omega⟩
        intro hnt
        rw [hpo]
        exact hpfs hnt
    · have hlt1 : ctx.field_offset + 1 < get_field_size ctx.state := by omega
      rw [consume1_incomplete ctx b hterm hmaxlt' hoff' hlt1]
      refine ⟨⟨?_, hsb_scr⟩, ?_⟩
      · intro _
        simp only [stepCtx, takeCount_one ctx b hoff']
        omega
      · simp [stepCtx, takeCount_one ctx b hoff']

theorem foldl_consume1_facts (rest : List Nat) : ∀ ctx : TxParserCtx, ctxOK ctx →
    ctx.total_consumed + rest.length ≤ MAX_TX_SIZE →
    ctxOK (rest.foldl consume1 ctx) ∧
      (rest.foldl consume1 ctx).total_consumed ≤ ctx.total_consumed + rest.length := by
  induction rest with
  | nil => exact fun ctx hok _ => ⟨hok, by simp⟩
  | cons b rest ih =>
    intro ctx hok hmax
    simp only [List.length_cons] at hmax
    obtain ⟨hok', htot⟩ := consume1_ok_total ctx b hok (by omega)
    obtain ⟨hok'', htot'⟩ := ih (consume1 ctx b) hok' (by omega)
    exact ⟨hok'', by simp only [List.foldl_cons, List.length_cons]; omega⟩

theorem consumeLoop_foldl (rest : List Nat) : ∀ ctx : TxParserCtx, ctxOK ctx →
    ctx.total_consumed + rest.length ≤ MAX_TX_SIZE →
    (consumeLoop ctx rest).1 = rest.foldl consume1 ctx := by
  induction rest with
  | nil => intro ctx _ _; rw [consumeLoop_nil]; rfl
  | cons b rest ih =>
    intro ctx hok hmax
    simp only [List.length_cons] at hmax
    rw [consumeLoop_cons ctx b rest hok (by omega)]
    obtain ⟨hok', htot⟩ := consume1_ok_total ctx b hok (by omega)
    rw [List.foldl_cons]
    exact ih (consume1 ctx b) hok' (by omega)

theorem consumeLoop_append (a c : List Nat) (ctx : TxParserCtx) (hok : ctxOK ctx)
    (hmax : ctx.total_consumed + a.length + c.length ≤ MAX_TX_SIZE) :
    (consumeLoop ctx (a ++ c)).1 = (consumeLoop ((consumeLoop ctx a).1) c).1 := by
  obtain ⟨hokA, htotA⟩ := foldl_consume1_facts a ctx hok (by omega)
  rw [consumeLoop_foldl (a ++ c) ctx hok (by simp; omega)]
  rw [List.foldl_append]
  rw [consumeLoop_foldl a ctx hok (by omega)]
  rw [consumeLoop_foldl c _ hokA (by omega)]


theorem ctxOK_init : ctxOK tx_parser_init := by
  constructor
  · intro _
    simp [tx_parser_init, get_field_size]
  · simp [tx_parser_init]

theorem feedChunks_join (chunks : List (List Nat)) : ∀ ctx : TxParserCtx, ctxOK ctx →
    ctx.total_consumed + chunks.flatten.length ≤ MAX_TX_SIZE →
    feedChunks ctx chunks = (consumeLoop ctx chunks.flatten).1 := by
  induction chunks with
  | nil =>
    intro ctx _ _
    rw [feedChunks]
    simp [consumeLoop_nil]
  | cons ch chs ih =>
    intro ctx hok hmax
    simp only [List.flatten, List.length_append] at hmax ⊢
    have hmaxch : ctx.total_consumed + ch.length ≤ MAX_TX_SIZE := by omega
    have hmaxj : ctx.total_consumed + ch.length + chs.flatten.length ≤ MAX_TX_SIZE := by
      omega
    obtain ⟨hokA, htotA⟩ := foldl_consume1_facts ch ctx hok hmaxch
    rw [feedChunks, List.foldl_cons]
    have h1 : (tx_parser_consume ctx ch).1 = (consumeLoop ctx ch).1 := by
      rw [tx_parser_consume_eq_loop]
    rw [← feedChunks]
    rw [h1]
    have hokB : ctxOK (consumeLoop ctx ch).1 := by
      rw [consumeLoop_foldl ch ctx hok hmaxch]
      exact hokA
    have htotB : (consumeLoop ctx ch).1.total_consumed ≤ ctx.total_consumed + ch.length := by
      rw [consumeLoop_foldl ch ctx hok hmaxch]
      exact htotA
    rw [ih (consumeLoop ctx ch).1 hokB (by omega)]
    exact (consumeLoop_append ch chs.flatten ctx hok (by omega)).symm


theorem consumeLoop_field (ctx : TxParserCtx) (chunk rest : List Nat)
    (hterm : ¬(ctx.state = .done ∨ ctx.state = .error))
    (hmaxlt : ¬MAX_TX_SIZE ≤ ctx.total_consumed)
    (hoff0 : ctx.field_offset = 0)
    (hlen : chunk.length = get_field_size ctx.state)
    (hfs1 : 0 < chunk.length) :
    consumeLoop ctx (chunk ++ rest) =
      (if (process_complete_field
            { ctx with scratch := chunk ++ ctx.scratch.drop chunk.length,
                       field_offset := chunk.length,
                       total_consumed := ctx.total_consumed + chunk.length }).2 = true then
        ((consumeLoop (process_complete_field
            { ctx with scratch := chunk ++ ctx.scratch.drop chunk.length,
                       field_offset := chunk.length,
                       total_consumed := ctx.total_consumed + chunk.length }).1 rest).1,
          chunk.length + (consumeLoop (process_complete_field
            { ctx with scratch := chunk ++ ctx.scratch.drop chunk.length,
                       field_offset := chunk.length,
                       total_consumed := ctx.total_consumed + chunk.length }).1 rest).2)
      else ({ (process_complete_field
            { ctx with scratch := chunk ++ ctx.scratch.drop chunk.length,
                       field_offset := chunk.length,
                       total_consumed := ctx.total_consumed + chunk.length }).1 with
              state := TxParseState.error }, chunk.length)) := by
  have hoff' : ctx.field_offset < get_field_size ctx.state := by omega
  have hne : chunk ++ rest ≠ [] := by
    cases chunk with
    | nil => simp at hfs1
    | cons x xs => simp
  have htc : takeCount ctx (chunk ++ rest) = chunk.length := by
    simp only [takeCount, List.length_append, hoff0, Nat.sub_zero]
    omega
  have hge : get_field_size ctx.state ≤ ctx.field_offset + takeCount ctx (chunk ++ rest) := by
    omega
  have hdrop : (chunk ++ rest).drop (takeCount ctx (chunk ++ rest)) = rest := by
    rw [htc, List.drop_left]
  have hsc : stepCtx ctx (chunk ++ rest) =
      { ctx with scratch := chunk ++ ctx.scratch.drop chunk.length,
                 field_offset := chunk.length,
                 total_consumed := ctx.total_consumed + chunk.length } := by
    simp only [stepCtx, htc, hoff0, writeBytes, List.take_zero, List.nil_append,
      Nat.zero_add, List.take_left]
  rw [← hsc]
  rcases hpc : process_complete_field (stepCtx ctx (chunk ++ rest)) with ⟨c2, fl⟩
  cases fl
  · rw [consumeLoop_step_complete_false ctx c2 (chunk ++ rest) hne hterm hmaxlt hoff' hge hpc]
    simp [htc]
  · rw [consumeLoop_step_complete_true ctx c2 (chunk ++ rest) hne hterm hmaxlt hoff' hge hpc]
    rw [hdrop]
    simp [htc]

/-- C6: for every partition of a byte sequence of transaction size into
one or more non-empty chunks, feeding the chunks in order through
tx_parser_consume on a fresh context yields the same final parser state
and parsed record as feeding the whole sequence in one call. -/
theorem c6_chunked_parse_eq_one_shot (chunks : List (List Nat))
    (_hne : chunks ≠ []) (_hpos : ∀ c ∈ chunks, c ≠ [])
    (hlen : chunks.flatten.length ≤ MAX_TX_SIZE) :
    feedChunks tx_parser_init chunks =
      (tx_parser_consume tx_parser_init chunks.flatten).1 := by
  rw [tx_parser_consume_eq_loop]
  refine feedChunks_join chunks tx_parser_init ctxOK_init ?_
  simpa [tx_parser_init] using hlen

/-- Witness for C6: a three-way split of a short prefix. -/
theorem c6_chunked_parse_eq_one_shot_witness :
    (([[1], [5, 6], [7]] : List (List Nat)) ≠ [] ∧
      (∀ c ∈ ([[1], [5, 6], [7]] : List (List Nat)), c ≠ []) ∧
      ([[1], [5, 6], [7]] : List (List Nat)).flatten.length ≤ MAX_TX_SIZE) ∧
    feedChunks tx_parser_init [[1], [5, 6], [7]] =
      (tx_parser_consume tx_parser_init ([[1], [5, 6], [7]] : List (List Nat)).flatten).1 :=
  ⟨⟨by decide, by decide, by decide⟩,
    c6_chunked_parse_eq_one_shot [[1], [5, 6], [7]] (by decide) (by decide) (by decide)⟩


theorem read_u64_le_prefix (l t : List Nat) (h : l.length = 8) :
    read_u64_le (l ++ t) = read_u64_le l := by
  simp only [read_u64_le]
  rw [List.getD_append l t 0 0 (by omega), List.getD_append l t 0 1 (by omega),
    List.getD_append l t 0 2 (by omega), List.getD_append l t 0 3 (by omega),
    List.getD_append l t 0 4 (by omega), List.getD_append l t 0 5 (by omega),
    List.getD_append l t 0 6 (by omega), List.getD_append l t 0 7 (by omega)]

/-- C5: every well-formed 82-byte Transfer wire encoding (version byte 1,
tx_type byte 0, fields of the declared widths) drives a freshly
initialized parser to the done state, and the parsed record returns
exactly the encoded fields, multi-byte integers decoded little-endian. -/
theorem c5_oneshot_transfer_parse (cb sb nb gpb glb rb ab : List Nat)
    (hc : cb.length = 8) (hs : sb.length = 20) (hn : nb.length = 8)
    (hgp : gpb.length = 8) (hgl : glb.length = 8) (hr : rb.length = 20)
    (ha : ab.length = 8)
    (_hbytes : ∀ x ∈ [1] ++ (cb ++ (sb ++ (nb ++ (gpb ++ (glb ++ ([0] ++ (rb ++ ab))))))),
      x < 256) :
    ([1] ++ (cb ++ (sb ++ (nb ++ (gpb ++ (glb ++ ([0] ++ (rb ++ ab)))))))).length = 82 ∧
    tx_parser_is_done
      (tx_parser_consume tx_parser_init
        ([1] ++ (cb ++ (sb ++ (nb ++ (gpb ++ (glb ++ ([0] ++ (rb ++ ab))))))))).1 = true ∧
    tx_parser_get_parsed
        (tx_parser_consume tx_parser_init
          ([1] ++ (cb ++ (sb ++ (nb ++ (gpb ++ (glb ++ ([0] ++ (rb ++ ab))))))))).1 =
      tx_parser_compute_fee (mkTransferParsed cb sb nb gpb glb rb ab) := by
  refine ⟨by simp [hc, hs, hn, hgp, hgl, hr, ha], ?_⟩
  rw [tx_parser_consume_eq_loop]
  rw [consumeLoop_field _ _ _ (by simp [tx_parser_init])
    (by norm_num [tx_parser_init, MAX_TX_SIZE]) rfl
    (by simp [tx_parser_init, get_field_size]) (by simp)]
  simp [process_complete_field, get_field_size, ADDRESS_LEN, tx_parser_init, zeroParsed,
    read_u64_le_prefix, List.take_left', hc, hs, hn, hgp, hgl, hr, ha]
  rw [consumeLoop_field _ _ _ (by simp) (by norm_num [MAX_TX_SIZE]) rfl
    (by simp [get_field_size, hc]) (by omega)]
  simp [process_complete_field, get_field_size, ADDRESS_LEN, zeroParsed,
    read_u64_le_prefix, List.take_left', hc, hs, hn, hgp, hgl, hr, ha]
  rw [consumeLoop_field _ _ _ (by simp) (by norm_num [MAX_TX_SIZE]) rfl
    (by simp [get_field_size, hs]) (by omega)]
  simp [process_complete_field, get_field_size, ADDRESS_LEN, zeroParsed,
    read_u64_le_prefix, List.take_left', hc, hs, hn, hgp, hgl, hr, ha]
  rw [consumeLoop_field _ _ _ (by simp) (by norm_num [MAX_TX_SIZE]) rfl
    (by simp [get_field_size, hn]) (by omega)]
  simp [process_complete_field, get_field_size, ADDRESS_LEN, zeroParsed,
    read_u64_le_prefix, List.take_left', hc, hs, hn, hgp, hgl, hr, ha]
  rw [consumeLoop_field _ _ _ (by simp) (by norm_num [MAX_TX_SIZE]) rfl
    (by simp [get_field_size, hgp]) (by omega)]
  simp [process_complete_field, get_field_size, ADDRESS_LEN, zeroParsed,
    read_u64_le_prefix, List.take_left', hc, hs, hn, hgp, hgl, hr, ha]
  rw [consumeLoop_field _ _ _ (by simp) (by norm_num [MAX_TX_SIZE]) rfl
    (by simp [get_field_size, hgl]) (by omega)]
  simp [process_complete_field, get_field_size, ADDRESS_LEN, zeroParsed,
    read_u64_le_prefix, List.take_left', hc, hs, hn, hgp, hgl, hr, ha]
  rw [show (0 : Nat) :: (rb ++ ab) = [0] ++ (rb ++ ab) from rfl]
  rw [consumeLoop_field _ _ _ (by simp) (by norm_num [MAX_TX_SIZE]) rfl
    (by simp [get_field_size]) (by simp)]
  simp [process_complete_field, get_field_size, ADDRESS_LEN, zeroParsed,
    read_u64_le_prefix, List.take_left', hc, hs, hn, hgp, hgl, hr, ha]
  rw [consumeLoop_field _ _ _ (by simp) (by norm_num [MAX_TX_SIZE]) rfl
    (by simp [get_field_size, hr]) (by omega)]
  simp [process_complete_field, get_field_size, ADDRESS_LEN, zeroParsed,
    read_u64_le_prefix, List.take_left', hc, hs, hn, hgp, hgl, hr, ha]
  rw [show ab = ab ++ ([] : List Nat) from (List.append_nil ab).symm]
  rw [consumeLoop_field _ _ _ (by simp) (by norm_num [MAX_TX_SIZE]) rfl
    (by simp [get_field_size, ha]) (by omega)]
  simp [process_complete_field, get_field_size, ADDRESS_LEN, zeroParsed,
    read_u64_le_prefix, List.take_left', hc, hs, hn, hgp, hgl, hr, ha,
    consumeLoop_nil, tx_parser_is_done, tx_parser_get_parsed, mkTransferParsed]

/-- Witness for C5 at the S1 transaction of the specification. -/
theorem c5_oneshot_transfer_parse_witness :
    (([1, 0, 0, 0, 0, 0, 0, 0] : List Nat).length = 8 ∧
      (List.replicate 20 17 : List Nat).length = 20 ∧
      ([42, 0, 0, 0, 0, 0, 0, 0] : List Nat).length = 8 ∧
      ([232, 3, 0, 0, 0, 0, 0, 0] : List Nat).length = 8 ∧
      ([8, 82, 0, 0, 0, 0, 0, 0] : List Nat).length = 8 ∧
      (List.replicate 20 34 : List Nat).length = 20 ∧
      ([64, 66, 15, 0, 0, 0, 0, 0] : List Nat).length = 8) ∧
    tx_parser_is_done
      (tx_parser_consume tx_parser_init
        ([1] ++ ([1, 0, 0, 0, 0, 0, 0, 0] ++ (List.replicate 20 17 ++
          ([42, 0, 0, 0, 0, 0, 0, 0] ++ ([232, 3, 0, 0, 0, 0, 0, 0] ++
          ([8, 82, 0, 0, 0, 0, 0, 0] ++ ([0] ++ (List.replicate 20 34 ++
          [64, 66, 15, 0, 0, 0, 0, 0]))))))))).1 = true :=
  ⟨⟨by decide, by decide, by decide, by decide, by decide, by decide, by decide⟩,
    (c5_oneshot_transfer_parse [1, 0, 0, 0, 0, 0, 0, 0] (List.replicate 20 17)
      [42, 0, 0, 0, 0, 0, 0, 0] [232, 3, 0, 0, 0, 0, 0, 0] [8, 82, 0, 0, 0, 0, 0, 0]
      (List.replicate 20 34) [64, 66, 15, 0, 0, 0, 0, 0]
      (by decide) (by decide) (by decide) (by decide) (by decide) (by decide)
      (by decide) (by decide)).2.1⟩

theorem decDigitsRevAux_len (fuel v : Nat) :
    (decDigitsRevAux fuel v).length ≤ fuel := by
  induction fuel generalizing v with
  | zero => simp [decDigitsRevAux]
  | succ fuel ih =>
    rw [decDigitsRevAux]
    split_ifs with h
    · simp
    · simpa using ih (v / 10)

theorem decDigitsRevAux_eq_digits (fuel : Nat) : ∀ v : Nat, v < 10 ^ fuel →
    decDigitsRevAux fuel v = Nat.digits 10 v := by
  induction fuel with
  | zero =>
    intro v hv
    interval_cases v
    simp [decDigitsRevAux]
  | succ fuel ih =>
    intro v hv
    rw [decDigitsRevAux]
    split_ifs with h
    · simp [h]
    · rw [Nat.digits_def' (by norm_num) (by omega)]
      rw [ih (v / 10) ?_]
      rw [Nat.div_lt_iff_lt_mul (by norm_num)]
      calc v < 10 ^ (fuel + 1) := hv
        _ = 10 ^ fuel * 10 := by rw [pow_succ]

theorem format_u64_decimal_eq (v out_len : Nat) (hv : v < 10 ^ 24)
    (ho : 25 ≤ out_len) :
    format_u64_decimal v out_len = some (decString v) := by
  rcases Nat.eq_zero_or_pos v with hv0 | hv0
  · subst hv0
    simp only [format_u64_decimal, decString]
    rw [if_neg (by omega : ¬out_len = 0), if_pos trivial,
      if_neg (by omega : ¬out_len < 2), if_pos trivial]
  · have hlen := decDigitsRevAux_len 24 v
    simp only [format_u64_decimal, decString]
    rw [if_neg (by omega : ¬out_len = 0), if_neg (by omega : ¬v = 0)]
    rw [if_neg (by omega : ¬out_len < (decDigitsRevAux 24 v).length + 1)]
    rw [if_neg (by omega : ¬v = 0)]
    rw [decDigitsRevAux_eq_digits 24 v hv]

/-- Amended C7: for every input with the overflow flag set format_fee
writes the literal Overflow string; with the flag clear and fee_high zero
(the only flag-clear combination tx_parser_compute_fee produces) it
writes the exact decimal representation of fee_high * 2^64 + fee_low. -/
theorem c7_format_fee_amended (lo hi : Nat) (hlo : lo < U64) :
    (hi = 0 →
      format_fee lo hi false TX_DISPLAY_FEE_MAX_LEN
        = some (decString (hi * U64 + lo))) ∧
    format_fee lo hi true TX_DISPLAY_FEE_MAX_LEN = some overflowStr := by
  constructor
  · intro hhi
    subst hhi
    rw [format_fee]
    rw [if_neg (by norm_num [TX_DISPLAY_FEE_MAX_LEN])]
    simp only [Bool.false_eq_true, if_false, if_pos rfl]
    rw [Nat.zero_mul, Nat.zero_add]
    refine format_u64_decimal_eq lo TX_DISPLAY_FEE_MAX_LEN ?_ (by norm_num [TX_DISPLAY_FEE_MAX_LEN])
    calc lo < U64 := hlo
      _ ≤ 10 ^ 24 := by norm_num [U64]
  · rw [format_fee]
    rw [if_neg (by norm_num [TX_DISPLAY_FEE_MAX_LEN])]
    rw [if_pos rfl, if_neg (by decide)]

/-- Witness for the amended C7: the decimal branch at the S1 fee value and
the Overflow branch at a non-zero fee_high. -/
theorem c7_format_fee_amended_witness :
    ((21000000 : Nat) < U64 ∧ U64 - 1 < U64) ∧
    format_fee 21000000 0 false TX_DISPLAY_FEE_MAX_LEN
        = some (decString (0 * U64 + 21000000)) ∧
    format_fee (U64 - 1) 1 true TX_DISPLAY_FEE_MAX_LEN = some overflowStr :=
  ⟨⟨by decide, by decide⟩,
    (c7_format_fee_amended 21000000 0 (by decide)).1 rfl,
    (c7_format_fee_amended (U64 - 1) 1 (by decide)).2⟩

/-- Counterexample to C7 as stated: at fee_low = 2^64 - 1, fee_high = 1,
overflow flag clear, the 128-bit branch prints the decimal digits of
2^64 - 1 instead of the digits of 1 * 2^64 + (2^64 - 1): the computed
digit string reads back as the wrong value. -/
theorem c7_format_fee_counterexample :
    (format_fee (U64 - 1) 1 false TX_DISPLAY_FEE_MAX_LEN).map decInterp
        = some (U64 - 1) ∧
    U64 - 1 ≠ 1 * U64 + (U64 - 1) := by
  constructor
  · decide
  · decide


theorem listVal_foldl (t : List Nat) : ∀ c : Nat,
    t.foldl (fun a b => a * 256 + b) c = c * 256 ^ t.length + listVal t := by
  induction t with
  | nil => intro c; simp [listVal]
  | cons b t ih =>
    intro c
    have hval : listVal (b :: t) = b * 256 ^ t.length + listVal t := by
      simp only [listVal, List.foldl_cons, Nat.zero_mul, Nat.zero_add]
      rw [ih b]
      simp [listVal]
    simp only [List.foldl_cons, List.length_cons]
    rw [ih (c * 256 + b), hval]
    ring

theorem listVal_cons (b : Nat) (t : List Nat) :
    listVal (b :: t) = b * 256 ^ t.length + listVal t := by
  simp only [listVal, List.foldl_cons, Nat.zero_mul, Nat.zero_add]
  rw [listVal_foldl t b]
  simp [listVal]

theorem listVal_lt (l : List Nat) (h : ∀ b ∈ l, b < 256) :
    listVal l < 256 ^ l.length := by
  induction l with
  | nil => simp [listVal]
  | cons b t ih =>
    rw [listVal_cons]
    have hb : b < 256 := h b (by simp)
    have ht := ih (fun x hx => h x (by simp [hx]))
    simp only [List.length_cons, pow_succ]
    calc b * 256 ^ t.length + listVal t
        ≤ 255 * 256 ^ t.length + listVal t := by
          have : b ≤ 255 := by omega
          exact Nat.add_le_add_right (Nat.mul_le_mul_right _ this) _
      _ < 255 * 256 ^ t.length + 256 ^ t.length := by omega
      _ = 256 ^ t.length * 256 := by ring

theorem stripZeros_val (l : List Nat) : listVal (stripZeros l) = listVal l := by
  induction l with
  | nil => simp [stripZeros]
  | cons b t ih =>
    by_cases hb : b = 0
    · subst hb
      rw [stripZeros, List.dropWhile_cons]
      simp only [beq_self_eq_true, if_pos trivial]
      rw [← stripZeros, ih, listVal_cons]
      simp
    · rw [stripZeros, List.dropWhile_cons]
      simp [hb]

theorem stripZeros_head (l : List Nat) : ∀ h t, stripZeros l = h :: t → h ≠ 0 := by
  induction l with
  | nil => intro h t hc; simp [stripZeros] at hc
  | cons b l ih =>
    intro h t hc
    by_cases hb : b = 0
    · subst hb
      rw [stripZeros, List.dropWhile_cons] at hc
      simp only [beq_self_eq_true, if_pos trivial] at hc
      exact ih h t hc
    · rw [stripZeros, List.dropWhile_cons] at hc
      simp [hb] at hc
      rw [← hc.1]
      exact hb

theorem stripZeros_pos (l : List Nat) (hne : stripZeros l ≠ []) :
    0 < listVal (stripZeros l) := by
  rcases hs : stripZeros l with _ | ⟨h, t⟩
  · exact absurd hs hne
  · have hh := stripZeros_head l h t hs
    rw [listVal_cons]
    have : 0 < 256 ^ t.length := Nat.pos_pow_of_pos _ (by norm_num)
    have : 0 < h := by omega
    positivity

theorem stripZeros_nil_val (l : List Nat) (hs : stripZeros l = []) :
    listVal l = 0 := by
  rw [← stripZeros_val, hs]
  simp [listVal]


theorem divmod58_length (l : List Nat) : ∀ c, (divmod58 l c).1.length = l.length := by
  induction l with
  | nil => intro c; simp [divmod58]
  | cons b t ih =>
    intro c
    rw [divmod58]
    simp [ih]

theorem divmod58_spec (l : List Nat) : ∀ c : Nat, c < 58 →
    58 * listVal (divmod58 l c).1 + (divmod58 l c).2 =
        l.foldl (fun a b => a * 256 + b) c ∧
      (divmod58 l c).2 < 58 := by
  induction l with
  | nil =>
    intro c hc
    refine ⟨by simp [divmod58, listVal], by simpa [divmod58] using hc⟩
  | cons b t ih =>
    intro c hc
    obtain ⟨ih1, ih2⟩ := ih ((c * 256 + b) % 58) (Nat.mod_lt _ (by norm_num))
    rw [divmod58]
    refine ⟨?_, ih2⟩
    simp only [List.foldl_cons]
    rw [listVal_cons, divmod58_length t _]
    rw [listVal_foldl t ((c * 256 + b) % 58)] at ih1
    rw [listVal_foldl t (c * 256 + b)]
    have hdm := Nat.div_add_mod (c * 256 + b) 58
    calc 58 * ((c * 256 + b) / 58 * 256 ^ t.length +
            listVal (divmod58 t ((c * 256 + b) % 58)).1) +
          (divmod58 t ((c * 256 + b) % 58)).2
        = 58 * ((c * 256 + b) / 58 * 256 ^ t.length) +
            (58 * listVal (divmod58 t ((c * 256 + b) % 58)).1 +
              (divmod58 t ((c * 256 + b) % 58)).2) := by ring
      _ = 58 * ((c * 256 + b) / 58 * 256 ^ t.length) +
            ((c * 256 + b) % 58 * 256 ^ t.length + listVal t) := by rw [ih1]
      _ = (58 * ((c * 256 + b) / 58) + (c * 256 + b) % 58) * 256 ^ t.length
            + listVal t := by ring
      _ = (c * 256 + b) * 256 ^ t.length + listVal t := by rw [hdm]

theorem b58DigitsAux_eq (fuel : Nat) : ∀ l : List Nat, listVal l < fuel →
    b58DigitsAux fuel l = Nat.digits 58 (listVal l) := by
  induction fuel with
  | zero => intro l h; omega
  | succ fuel ih =>
    intro l h
    rw [b58DigitsAux]
    rcases hs : stripZeros l with _ | ⟨hd, tl⟩
    · rw [if_pos rfl]
      have hval := stripZeros_nil_val l hs
      rw [hval]
      simp
    · have hpos : 0 < listVal (stripZeros l) := stripZeros_pos l (by simp [hs])
      have hval : listVal (stripZeros l) = listVal l := stripZeros_val l
      rw [hs] at hpos hval
      obtain ⟨hspec, hrem⟩ := divmod58_spec (hd :: tl) 0 (by norm_num)
      have hF : (hd :: tl).foldl (fun a b => a * 256 + b) 0 = listVal l := by
        rw [← hval]
        rfl
      rw [hF] at hspec
      have hNpos : 0 < listVal l := by
        rw [← hval]
        exact hpos
      have hr : (divmod58 (hd :: tl) 0).2 = listVal l % 58 := by omega
      have hq : listVal (divmod58 (hd :: tl) 0).1 = listVal l / 58 := by omega
      rw [if_neg (by simp)]
      show (divmod58 (hd :: tl) 0).2 ::
          b58DigitsAux fuel (divmod58 (hd :: tl) 0).1 = Nat.digits 58 (listVal l)
      rw [Nat.digits_def' (by norm_num : (1 : Nat) < 58) hNpos]
      rw [hr]
      congr 1
      have hlt : listVal (divmod58 (hd :: tl) 0).1 < fuel := by
        have hdiv : listVal l / 58 < listVal l := Nat.div_lt_self (by omega) (by norm_num)
        omega
      rw [ih _ hlt, hq]

theorem digits_length_le (b k : Nat) (hb : 1 < b) : ∀ N, N < b ^ k →
    (Nat.digits b N).length ≤ k := by
  induction k with
  | zero =>
    intro N hN
    simp only [pow_zero, Nat.lt_one_iff] at hN
    simp [hN]
  | succ k ih =>
    intro N hN
    rcases Nat.eq_zero_or_pos N with h0 | h0
    · simp [h0]
    · rw [Nat.digits_def' hb h0]
      simp only [List.length_cons]
      have : N / b < b ^ k := by
        rw [Nat.div_lt_iff_lt_mul (by omega)]
        calc N < b ^ (k + 1) := hN
          _ = b ^ k * b := by rw [pow_succ]
      exact Nat.succ_le_succ (ih (N / b) this)


theorem b58Digits_eq (l : List Nat) : b58Digits l = Nat.digits 58 (listVal l) :=
  b58DigitsAux_eq (listVal l + 1) l (by omega)

theorem b58Alphabet_getD_mem (d : Nat) (hd : d < 58) :
    b58Alphabet.getD d '1' ∈ b58Alphabet := by
  have hlen : b58Alphabet.length = 58 := by decide
  rw [List.getD_eq_getElem b58Alphabet '1' (by omega)]
  exact List.getElem_mem _

theorem b58Alphabet_getD_ne_one (d : Nat) (hd : d < 58) (hd0 : d ≠ 0) :
    b58Alphabet.getD d '1' ≠ '1' := by
  interval_cases d
  · exact absurd rfl hd0
  all_goals decide

theorem listVal_eq_zero_all (l : List Nat) (h : listVal l = 0) : ∀ b ∈ l, b = 0 := by
  induction l with
  | nil => simp
  | cons b t ih =>
    rw [listVal_cons] at h
    have hp : 0 < 256 ^ t.length := Nat.pos_pow_of_pos _ (by norm_num)
    have hb : b = 0 := by
      rcases Nat.eq_zero_or_pos b with h0 | h0
      · exact h0
      · exfalso
        have : 0 < b * 256 ^ t.length := Nat.mul_pos h0 hp
        omega
    have ht : listVal t = 0 := by omega
    intro x hx
    rcases List.mem_cons.mp hx with rfl | hx'
    · exact hb
    · exact ih ht x hx'

theorem takeWhile_length_all {α : Type} (p : α → Bool) (l : List α)
    (h : ∀ b ∈ l, p b = true) : (l.takeWhile p).length = l.length := by
  induction l with
  | nil => simp
  | cons b t ih =>
    rw [List.takeWhile_cons, if_pos (h b (by simp))]
    simp only [List.length_cons]
    rw [ih (fun x hx => h x (by simp [hx]))]

theorem takeWhile_one_replicate_append (z : Nat) (rest : List Char) :
    ((List.replicate z '1' ++ rest).takeWhile (· == '1')).length =
      z + (rest.takeWhile (· == '1')).length := by
  induction z with
  | zero => simp
  | succ z ih =>
    rw [List.replicate_succ, List.cons_append, List.takeWhile_cons]
    simp only [beq_self_eq_true, if_pos trivial, List.length_cons]
    rw [ih]
    omega


/-- C8: base58_encode on any 20-byte input succeeds, all output symbols
lie in the declared alphabet, the length is between 1 and 34, and the
leading count of the symbol 1 equals the count of leading zero bytes. -/
theorem c8_base58_encode_sound (inB : List Nat) (hlen : inB.length = 20)
    (hbytes : ∀ b ∈ inB, b < 256) :
    ∃ s : String, base58_encode inB ADDRESS_BASE58_MAX_LEN = some s ∧
      (∀ ch ∈ s.data, ch ∈ b58Alphabet) ∧
      1 ≤ s.data.length ∧ s.data.length ≤ 34 ∧
      (s.data.takeWhile (· == '1')).length = (inB.takeWhile (· == 0)).length := by
  have hz20 : (inB.takeWhile (· == 0)).length ≤ 20 := by
    rw [← hlen]
    exact List.Sublist.length_le (List.takeWhile_sublist _)
  have hstriplen : (stripZeros inB).length = 20 - (inB.takeWhile (· == 0)).length := by
    have hsplit := List.takeWhile_append_dropWhile (p := (· == 0)) (l := inB)
    have := congrArg List.length hsplit
    simp only [List.length_append] at this
    rw [hlen] at this
    rw [stripZeros]
    omega
  have hNlt : listVal inB < 256 ^ (20 - (inB.takeWhile (· == 0)).length) := by
    rw [← stripZeros_val inB, ← hstriplen]
    refine listVal_lt _ ?_
    intro b hb
    exact hbytes b ((List.dropWhile_sublist _).mem hb)
  have hdlen : (b58Digits inB).length ≤ 34 - (inB.takeWhile (· == 0)).length := by
    rw [b58Digits_eq]
    refine digits_length_le 58 _ (by norm_num) _ ?_
    calc listVal inB < 256 ^ (20 - (inB.takeWhile (· == 0)).length) := hNlt
      _ ≤ 58 ^ (34 - (inB.takeWhile (· == 0)).length) := by
        refine Nat.le_of_mul_le_mul_right ?_
          (Nat.pos_pow_of_pos (inB.takeWhile (· == 0)).length (show 0 < 58 by norm_num))
        calc (256 : Nat) ^ (20 - (inB.takeWhile (· == 0)).length) *
              58 ^ (inB.takeWhile (· == 0)).length
            ≤ 256 ^ (20 - (inB.takeWhile (· == 0)).length) *
              256 ^ (inB.takeWhile (· == 0)).length :=
              Nat.mul_le_mul_left _ (Nat.pow_le_pow_left (by norm_num) _)
          _ = 256 ^ 20 := by
              rw [← pow_add]
              congr 1
              omega
          _ ≤ 58 ^ 34 := by norm_num
          _ = 58 ^ (34 - (inB.takeWhile (· == 0)).length) *
              58 ^ (inB.takeWhile (· == 0)).length := by
              rw [← pow_add]
              congr 1
              omega
  refine ⟨String.mk (List.replicate (inB.takeWhile (· == 0)).length '1' ++
      (b58Digits inB).reverse.map (fun d => b58Alphabet.getD d '1')), ?_, ?_, ?_, ?_, ?_⟩
  · rw [base58_encode]
    rw [if_neg (by norm_num [ADDRESS_BASE58_MAX_LEN])]
    rw [if_neg (by omega), if_neg (by omega)]
    rw [if_neg (by omega), if_neg (by simp [ADDRESS_BASE58_MAX_LEN]; omega)]
  · intro ch hch
    rcases List.mem_append.mp hch with hch | hch
    · have : ch = '1' := List.eq_of_mem_replicate hch
      rw [this]
      decide
    · obtain ⟨d, hd, rfl⟩ := List.mem_map.mp hch
      refine b58Alphabet_getD_mem d ?_
      have hd' : d ∈ Nat.digits 58 (listVal inB) := by
        rw [← b58Digits_eq]
        exact List.mem_reverse.mp hd
      exact Nat.digits_lt_base (by norm_num) hd'
  · simp only [List.length_append, List.length_replicate, List.length_map,
      List.length_reverse]
    by_contra hcon
    push_neg at hcon
    have hz0 : (inB.takeWhile (· == 0)).length = 0 := by omega
    have hds0 : (b58Digits inB).length = 0 := by omega
    have hN0 : listVal inB = 0 := by
      rw [b58Digits_eq] at hds0
      have := Nat.digits_ne_nil_iff_ne_zero (b := 58) (n := listVal inB)
      rcases Nat.eq_zero_or_pos (listVal inB) with h0 | h0
      · exact h0
      · exfalso
        have hne := this.mpr (by omega)
        rw [← List.length_pos_iff_ne_nil] at hne
        omega
    have hall := listVal_eq_zero_all inB hN0
    have : (inB.takeWhile (· == 0)).length = 20 := by
      rw [← hlen]
      refine takeWhile_length_all _ _ ?_
      intro b hb
      simp [hall b hb]
    omega
  · simp only [List.length_append, List.length_replicate, List.length_map,
      List.length_reverse]
    omega
  · show ((List.replicate (inB.takeWhile (· == 0)).length '1' ++
      (b58Digits inB).reverse.map (fun d => b58Alphabet.getD d '1')).takeWhile
        (· == '1')).length = (inB.takeWhile (· == 0)).length
    rw [takeWhile_one_replicate_append]
    rcases hrev : (b58Digits inB).reverse with _ | ⟨d0, dr⟩
    · simp
    · have hds : b58Digits inB = dr.reverse ++ [d0] := by
        have := congrArg List.reverse hrev
        simpa using this
      have hNne : listVal inB ≠ 0 := by
        intro h0
        rw [b58Digits_eq, h0] at hds
        simp at hds
      have hd0q : (Nat.digits 58 (listVal inB)).getLast? = some d0 := by
        rw [← b58Digits_eq, hds]
        simp
      have hd0ne : d0 ≠ 0 := by
        have h2 := List.getLast?_eq_getLast_of_ne_nil
          (l := Nat.digits 58 (listVal inB))
          ((Nat.digits_ne_nil_iff_ne_zero (b := 58)).mpr hNne)
        rw [hd0q] at h2
        have h3 : d0 = (Nat.digits 58 (listVal inB)).getLast
            ((Nat.digits_ne_nil_iff_ne_zero (b := 58)).mpr hNne) := by
          injection h2
        rw [h3]
        exact Nat.getLast_digit_ne_zero 58 hNne
      have hd0lt : d0 < 58 := by
        have hd' : d0 ∈ Nat.digits 58 (listVal inB) := by
          rw [← b58Digits_eq, hds]
          simp
        exact Nat.digits_lt_base (by norm_num) hd'
      rw [List.map_cons, List.takeWhile_cons]
      rw [if_neg (by simpa using b58Alphabet_getD_ne_one d0 hd0lt hd0ne)]
      simp


/-- Witness for C8 on a 20-byte address with two leading zero bytes. -/
theorem c8_base58_encode_sound_witness :
    ((0 :: 0 :: List.replicate 18 255 : List Nat).length = 20 ∧
      (∀ b ∈ (0 :: 0 :: List.replicate 18 255 : List Nat), b < 256)) ∧
    ∃ s : String,
      base58_encode (0 :: 0 :: List.replicate 18 255) ADDRESS_BASE58_MAX_LEN = some s ∧
      (∀ ch ∈ s.data, ch ∈ b58Alphabet) ∧
      1 ≤ s.data.length ∧ s.data.length ≤ 34 ∧
      (s.data.takeWhile (· == '1')).length =
        ((0 :: 0 :: List.replicate 18 255 : List Nat).takeWhile (· == 0)).length :=
  ⟨⟨by decide, by decide⟩,
    c8_base58_encode_sound (0 :: 0 :: List.replicate 18 255) (by decide) (by decide)⟩


theorem sign_arm_inl (session : SignSession) (apdu : Apdu) (r : SignResult)
    (h : sign_tx_stream_arm session apdu = Sum.inl r) :
    r.response = [] ∧ r.status ≠ SW_OK ∧
      (session_inv session → r.session = zeroSession) := by
  simp only [sign_tx_stream_arm] at h
  split at h
  · -- first chunk arm
    split at h
    · cases h; exact ⟨rfl, by decide, fun _ => rfl⟩
    · split at h
      · cases h; exact ⟨rfl, by decide, fun _ => rfl⟩
      · split at h
        · cases h; exact ⟨rfl, by decide, fun _ => rfl⟩
        · split at h
          · split at h
            · cases h; exact ⟨rfl, by decide, fun _ => rfl⟩
            · split at h
              · cases h; exact ⟨rfl, by decide, fun _ => rfl⟩
              · cases h
          · cases h
  · -- continuation arm
    split at h
    · next hinit =>
      cases h
      exact ⟨rfl, show SW_SESSION_ERROR ≠ SW_OK by decide, fun hinv => hinv hinit⟩
    · split at h
      · cases h; exact ⟨rfl, by decide, fun _ => rfl⟩
      · split at h
        · split at h
          · cases h; exact ⟨rfl, by decide, fun _ => rfl⟩
          · split at h
            · cases h; exact ⟨rfl, by decide, fun _ => rfl⟩
            · cases h
        · cases h

theorem sign_arm_inr (session : SignSession) (apdu : Apdu) (s : SignSession)
    (h : sign_tx_stream_arm session apdu = Sum.inr s) :
    s.initialized = true := by
  simp only [sign_tx_stream_arm] at h
  split at h
  · split at h
    · cases h
    · split at h
      · cases h
      · split at h
        · cases h
        · split at h
          · split at h
            · cases h
            · split at h
              · cases h
              · cases h; rfl
          · cases h; rfl
  · split at h
    · cases h
    · split at h
      · cases h
      · next hinit _ =>
        split at h
        · split at h
          · cases h
          · split at h
            · cases h
            · cases h
              simp only [Bool.not_eq_false] at hinit
              exact hinit
        · cases h
          simp only [Bool.not_eq_false] at hinit
          exact hinit


theorem handle_sign_tx_session_cases (session : SignSession) (apdu : Apdu)
    (ui : TxDisplay → UIResult) (signO : Bip32Path → List Nat → Option (List Nat))
    (hashFn : List Nat → List Nat) (hinv : session_inv session) :
    (∃ s, handle_sign_tx session apdu ui signO hashFn =
        { status := SW_OK, response := [], session := s } ∧
        s.initialized = true ∧ apdu.p2 = P2_MORE_CHUNKS) ∨
    ((handle_sign_tx session apdu ui signO hashFn).session = zeroSession ∧
      ((handle_sign_tx session apdu ui signO hashFn).status = SW_OK →
        apdu.p2 ≠ P2_MORE_CHUNKS)) := by
  simp only [handle_sign_tx]
  split
  · exact Or.inr ⟨rfl, fun hc => absurd hc (show SW_INVALID_P1P2 ≠ SW_OK by decide)⟩
  · split
    · exact Or.inr ⟨rfl, fun hc => absurd hc (show SW_INVALID_P1P2 ≠ SW_OK by decide)⟩
    · split
      · rename_i r harm
        obtain ⟨-, hstat, hsess⟩ := sign_arm_inl session apdu r harm
        exact Or.inr ⟨hsess hinv, fun hc => absurd hc hstat⟩
      · rename_i s harm
        by_cases hp2 : apdu.p2 = P2_MORE_CHUNKS
        · rw [if_pos hp2]
          exact Or.inl ⟨s, rfl, sign_arm_inr session apdu s harm, hp2⟩
        · rw [if_neg hp2]
          refine Or.inr ?_
          split
          · exact ⟨rfl, fun _ => hp2⟩
          · split
            · exact ⟨rfl, fun _ => hp2⟩
            · split
              · exact ⟨rfl, fun _ => hp2⟩
              · split
                · split
                  · exact ⟨rfl, fun _ => hp2⟩
                  · exact ⟨rfl, fun _ => hp2⟩
                · exact ⟨rfl, fun _ => hp2⟩

/-- C3: every execution of handle_sign_tx that returns a status other than
0x9000 leaves the whole session block zeroized (over the reachable
sessions, those satisfying the idle-implies-zero invariant). -/
theorem c3_error_exit_zeroizes (session : SignSession) (apdu : Apdu)
    (ui : TxDisplay → UIResult) (signO : Bip32Path → List Nat → Option (List Nat))
    (hashFn : List Nat → List Nat) (hinv : session_inv session)
    (herr : (handle_sign_tx session apdu ui signO hashFn).status ≠ SW_OK) :
    (handle_sign_tx session apdu ui signO hashFn).session = zeroSession := by
  rcases handle_sign_tx_session_cases session apdu ui signO hashFn hinv with
    ⟨s, heq, _, _⟩ | ⟨hz, _⟩
  · rw [heq] at herr; exact absurd rfl herr
  · exact hz

/-- C3 witness at a concrete erroneous call (invalid P1). -/
theorem c3_error_exit_zeroizes_witness :
    session_inv zeroSession ∧
    (handle_sign_tx zeroSession ⟨5, 0, []⟩ uiReject signNone hashNil).status ≠ SW_OK ∧
    (handle_sign_tx zeroSession ⟨5, 0, []⟩ uiReject signNone hashNil).session = zeroSession :=
  ⟨fun _ => rfl, by decide,
    c3_error_exit_zeroizes zeroSession ⟨5, 0, []⟩ uiReject signNone hashNil
      (fun _ => rfl) (by decide)⟩

/-- C9: after a handle_sign_tx call the session is initialized exactly when
the call returned 0x9000 for a chunk whose P2 announced more chunks; on
every other return the whole session is zeroized (over the reachable
sessions, those satisfying the idle-implies-zero invariant). -/
theorem c9_initialized_iff_streaming_ok (session : SignSession) (apdu : Apdu)
    (ui : TxDisplay → UIResult) (signO : Bip32Path → List Nat → Option (List Nat))
    (hashFn : List Nat → List Nat) (hinv : session_inv session) :
    ((handle_sign_tx session apdu ui signO hashFn).session.initialized = true ↔
      ((handle_sign_tx session apdu ui signO hashFn).status = SW_OK ∧
        apdu.p2 = P2_MORE_CHUNKS)) ∧
    (¬((handle_sign_tx session apdu ui signO hashFn).status = SW_OK ∧
        apdu.p2 = P2_MORE_CHUNKS) →
      (handle_sign_tx session apdu ui signO hashFn).session = zeroSession) := by
  rcases handle_sign_tx_session_cases session apdu ui signO hashFn hinv with
    ⟨s, heq, hinit, hp2⟩ | ⟨hz, himp⟩
  · rw [heq]
    exact ⟨⟨fun _ => ⟨rfl, hp2⟩, fun _ => hinit⟩, fun hc => absurd ⟨rfl, hp2⟩ hc⟩
  · rw [hz]
    constructor
    · constructor
      · intro hfalse; exact absurd hfalse (by decide)
      · rintro ⟨hok, hp2⟩; exact absurd hp2 (himp hok)
    · intro _; rfl

/-- C9 witness at a concrete call (invalid P2, so no session survives). -/
theorem c9_initialized_iff_streaming_ok_witness :
    session_inv zeroSession ∧
    ((handle_sign_tx zeroSession ⟨0, 7, []⟩ uiReject signNone hashNil).session.initialized = true ↔
      ((handle_sign_tx zeroSession ⟨0, 7, []⟩ uiReject signNone hashNil).status = SW_OK ∧
        (Apdu.mk 0 7 []).p2 = P2_MORE_CHUNKS)) :=
  ⟨fun _ => rfl,
    (c9_initialized_iff_streaming_ok zeroSession ⟨0, 7, []⟩ uiReject signNone hashNil
      (fun _ => rfl)).1⟩


/-- Counterexample to C2: with a session initialized and still streaming, a
first-chunk APDU is accepted as the start of a fresh session (status
0x9000, session re-initialized), not answered with 0x6F03. -/
theorem c2_counterexample :
    streamingSession.initialized = true ∧
    streamingSession.last_chunk_received = false ∧
    c2Apdu.p1 = P1_FIRST_CHUNK ∧
    (handle_sign_tx streamingSession c2Apdu uiReject signNone hashNil).status = SW_OK ∧
    (handle_sign_tx streamingSession c2Apdu uiReject signNone hashNil).status ≠ SW_SESSION_ERROR ∧
    (handle_sign_tx streamingSession c2Apdu uiReject signNone hashNil).session ≠ zeroSession := by
  decide

/-- C2 (amended): a first-chunk APDU discards any existing session and is
handled exactly as if the session were freshly zeroized; the call's outcome
equals the outcome on the all-zero session. -/
theorem c2_first_chunk_restart (session : SignSession) (apdu : Apdu)
    (ui : TxDisplay → UIResult) (signO : Bip32Path → List Nat → Option (List Nat))
    (hashFn : List Nat → List Nat) (h : apdu.p1 = P1_FIRST_CHUNK) :
    handle_sign_tx session apdu ui signO hashFn =
      handle_sign_tx zeroSession apdu ui signO hashFn := by
  have harm : sign_tx_stream_arm session apdu = sign_tx_stream_arm zeroSession apdu := by
    unfold sign_tx_stream_arm
    rw [h]
    rw [if_pos rfl, if_pos rfl]
  unfold handle_sign_tx
  rw [harm]

/-- Witness for the amended C2 at the concrete mid-stream session. -/
theorem c2_first_chunk_restart_witness :
    c2Apdu.p1 = P1_FIRST_CHUNK ∧
    handle_sign_tx streamingSession c2Apdu uiReject signNone hashNil =
      handle_sign_tx zeroSession c2Apdu uiReject signNone hashNil :=
  ⟨rfl, c2_first_chunk_restart streamingSession c2Apdu uiReject signNone hashNil rfl⟩


theorem ui_display_some (session : SignSession) (apdu : Apdu)
    (ui : TxDisplay → UIResult) (signO : Bip32Path → List Nat → Option (List Nat))
    (hashFn : List Nat → List Nat) (d : TxDisplay)
    (hd : sign_tx_ui_display session apdu = Option.some d) :
    ∃ s, sign_tx_stream_arm session apdu = Sum.inr s ∧
      handle_sign_tx session apdu ui signO hashFn =
        (match ui d with
         | UIResult.approved =>
             match signO s.path (sum_blake3_finalize32 s.tx_hash_ctx hashFn).1 with
             | Option.none =>
                 { status := SW_INTERNAL_ERROR, response := [], session := zeroSession }
             | Option.some sig =>
                 { status := SW_OK, response := sig, session := zeroSession }
         | _ => { status := SW_USER_REJECTED, response := [], session := zeroSession }) := by
  simp only [sign_tx_ui_display] at hd
  simp only [handle_sign_tx]
  split at hd
  · exact Option.noConfusion hd
  · rename_i h1
    rw [if_neg h1]
    split at hd
    · exact Option.noConfusion hd
    · rename_i h2
      rw [if_neg h2]
      split at hd
      · exact Option.noConfusion hd
      · rename_i s harm
        split at hd
        · exact Option.noConfusion hd
        · rename_i hp2
          rw [if_neg hp2]
          split at hd
          · exact Option.noConfusion hd
          · rename_i hdone
            rw [if_neg hdone]
            split at hd
            · exact Option.noConfusion hd
            · rename_i display hfmt
              split at hd
              · exact Option.noConfusion hd
              · rename_i hovf
                rw [if_neg hovf]
                injection hd with hdd
                subst hdd
                exact ⟨s, harm, rfl⟩

theorem handle_response_cases (session : SignSession) (apdu : Apdu)
    (ui : TxDisplay → UIResult) (signO : Bip32Path → List Nat → Option (List Nat))
    (hashFn : List Nat → List Nat) :
    (handle_sign_tx session apdu ui signO hashFn).response = [] ∨
    ∃ d, sign_tx_ui_display session apdu = Option.some d ∧ ui d = UIResult.approved ∧
      ∃ s sig, sign_tx_stream_arm session apdu = Sum.inr s ∧
        signO s.path (sum_blake3_finalize32 s.tx_hash_ctx hashFn).1 = Option.some sig ∧
        (handle_sign_tx session apdu ui signO hashFn).response = sig := by
  simp only [handle_sign_tx]
  split
  · exact Or.inl rfl
  · rename_i h1
    split
    · exact Or.inl rfl
    · rename_i h2
      split
      · rename_i r harm
        exact Or.inl (sign_arm_inl session apdu r harm).1
      · rename_i s harm
        by_cases hp2 : apdu.p2 = P2_MORE_CHUNKS
        · rw [if_pos hp2]
          exact Or.inl rfl
        · rw [if_neg hp2]
          split
          · exact Or.inl rfl
          · rename_i hdone
            split
            · exact Or.inl rfl
            · rename_i display hfmt
              split
              · exact Or.inl rfl
              · rename_i hovf
                split
                · rename_i hui
                  split
                  · exact Or.inl rfl
                  · rename_i sig hsg
                    refine Or.inr ⟨display, ?_, hui, s, sig, harm, hsg, rfl⟩
                    simp only [sign_tx_ui_display, if_neg h1, if_neg h2, harm,
                      if_neg hp2, if_neg hdone, hfmt, if_neg hovf]
                · exact Or.inl rfl


/-- C1: a run whose approval step sees the UI collaborator answer reject
or none ends with status 0x6985, an empty response and no signature; a
(64-byte) signature is in the response only when the collaborator answered
approve. -/
theorem c1_sign_refusal (session : SignSession) (apdu : Apdu)
    (ui : TxDisplay → UIResult) (signO : Bip32Path → List Nat → Option (List Nat))
    (hashFn : List Nat → List Nat)
    (hsig : ∀ p h s, signO p h = Option.some s → s.length = 64) :
    (∀ d, sign_tx_ui_display session apdu = Option.some d →
      ui d = UIResult.rejected ∨ ui d = UIResult.none →
      handle_sign_tx session apdu ui signO hashFn =
        { status := SW_USER_REJECTED, response := [], session := zeroSession }) ∧
    ((handle_sign_tx session apdu ui signO hashFn).response ≠ [] →
      ∃ d, sign_tx_ui_display session apdu = Option.some d ∧
        ui d = UIResult.approved ∧
        (handle_sign_tx session apdu ui signO hashFn).response.length = 64) := by
  constructor
  · intro d hd hud
    obtain ⟨s, -, heq⟩ := ui_display_some session apdu ui signO hashFn d hd
    rw [heq]
    rcases hud with hud | hud <;> rw [hud]
  · intro hresp
    rcases handle_response_cases session apdu ui signO hashFn with
      hnil | ⟨d, hd, happ, s, sig, -, hsg, hre⟩
    · exact absurd hnil hresp
    · exact ⟨d, hd, happ, by rw [hre]; exact hsig s.path _ sig hsg⟩

/-- C1 witness: a concrete last-chunk call on a parsed-out session in which
the UI collaborator rejects. -/
theorem c1_sign_refusal_witness :
    (∀ p h s, signNone p h = Option.some s → s.length = 64) ∧
    sign_tx_ui_display doneSessionW lastApdu ≠ Option.none ∧
    handle_sign_tx doneSessionW lastApdu uiReject signNone hashNil =
      { status := SW_USER_REJECTED, response := [], session := zeroSession } := by
  refine ⟨fun p h s hs => Option.noConfusion hs, by decide, ?_⟩
  rcases hd : sign_tx_ui_display doneSessionW lastApdu with _ | d
  · exact absurd hd (by decide)
  · exact (c1_sign_refusal doneSessionW lastApdu uiReject signNone hashNil
      (fun p h s hs => Option.noConfusion hs)).1 d hd (Or.inl rfl)


theorem parse_path_eq (n : Nat) (body extra : List Nat) (p : Bip32Path)
    (hn1 : 1 ≤ n) (hn2 : n ≤ 10) (hbody : body.length = 4 * n) :
    crypto_parse_path ((n :: body) ++ extra) p =
      Option.some (1 + n * 4,
        { length := n,
          path := (List.range n).map
              (fun i => read_u32_be ((body.drop (i * 4)).take 4)) ++ p.path.drop n }) := by
  unfold crypto_parse_path
  rw [List.cons_append]
  rw [if_neg (by simp)]
  simp only [List.getD_cons_zero]
  rw [if_neg (by simp [MAX_BIP32_PATH_LEN]; omega)]
  rw [if_neg (by simp [hbody]; omega)]
  have hcomps : ∀ i, i < n →
      ((n :: (body ++ extra)).drop (1 + i * 4)).take 4 = (body.drop (i * 4)).take 4 := by
    intro i hi
    have h1 : (n :: (body ++ extra)).drop (1 + i * 4) = (body ++ extra).drop (i * 4) := by
      rw [Nat.add_comm 1 (i * 4)]
      exact List.drop_succ_cons
    rw [h1, List.drop_append_eq_append_drop,
      Nat.sub_eq_zero_of_le (by omega), List.drop_zero,
      List.take_append_eq_append_take]
    have hdl : (body.drop (i * 4)).length = 4 * n - i * 4 := by
      simp [hbody]
    rw [hdl, Nat.sub_eq_zero_of_le (by omega), List.take_zero, List.append_nil]
  have hmap : (List.range n).map
      (fun i => read_u32_be (((n :: (body ++ extra)).drop (1 + i * 4)).take 4)) =
      (List.range n).map (fun i => read_u32_be ((body.drop (i * 4)).take 4)) := by
    refine List.map_congr_left ?_
    intro i hi
    rw [hcomps i (List.mem_range.mp hi)]
  rw [hmap]

theorem validate_parsed_path (n : Nat) (body : List Nat) (p : Bip32Path)
    (hn1 : 1 ≤ n) (hn2 : n ≤ 10)
    (hard : ∀ i, i < n → read_u32_be ((body.drop (i * 4)).take 4) &&& 0x80000000 ≠ 0) :
    crypto_validate_path
      { length := n,
        path := (List.range n).map
            (fun i => read_u32_be ((body.drop (i * 4)).take 4)) ++ p.path.drop n } = true := by
  unfold crypto_validate_path
  rw [if_neg (by simp [MAX_BIP32_PATH_LEN]; omega)]
  rw [List.all_eq_true]
  intro i hi
  have hi' : i < n := List.mem_range.mp hi
  have hgd : ((List.range n).map
      (fun j => read_u32_be ((body.drop (j * 4)).take 4)) ++ p.path.drop n).getD i 0 =
      read_u32_be ((body.drop (i * 4)).take 4) := by
    rw [List.getD_append _ _ _ _ (by simpa using hi')]
    simp [List.getD, hi']
  simp only [hgd]
  simpa [bne_iff_ne] using hard i hi'

/-- C10: a get-public-key APDU whose data starts with a well-formed,
fully hardened path consumes just the path and ignores any trailing
bytes: the result is 0x9000 with the 32-byte key, identical with and
without the trailing bytes. -/
theorem c10_pubkey_ignores_trailing (n : Nat) (body extra : List Nat)
    (p1 p2 : Nat) (derive : Bip32Path → Option (List Nat))
    (pathInit : Bip32Path) (pk : List Nat)
    (hn1 : 1 ≤ n) (hn2 : n ≤ 10) (hbody : body.length = 4 * n)
    (hard : ∀ i, i < n → read_u32_be ((body.drop (i * 4)).take 4) &&& 0x80000000 ≠ 0)
    (hderive : derive
      { length := n,
        path := (List.range n).map
            (fun i => read_u32_be ((body.drop (i * 4)).take 4)) ++ pathInit.path.drop n } =
      Option.some pk)
    (hpk : pk.length = 32) :
    handle_get_public_key ⟨p1, p2, (n :: body) ++ extra⟩ derive pathInit =
      handle_get_public_key ⟨p1, p2, n :: body⟩ derive pathInit ∧
    handle_get_public_key ⟨p1, p2, (n :: body) ++ extra⟩ derive pathInit =
      { status := SW_OK, response := pk } ∧
    pk.length = 32 := by
  have hval := validate_parsed_path n body pathInit hn1 hn2 hard
  have main : ∀ ex : List Nat,
      handle_get_public_key ⟨p1, p2, (n :: body) ++ ex⟩ derive pathInit =
        { status := SW_OK, response := pk } := by
    intro ex
    simp only [handle_get_public_key, parse_path_eq n body ex pathInit hn1 hn2 hbody,
      hval, hderive]
    rw [if_neg (by simp)]
    simp
  have hnil := main []
  rw [List.append_nil] at hnil
  exact ⟨(main extra).trans hnil.symm, main extra, hpk⟩


/-- C10 witness: a one-component hardened path followed by three trailing
bytes. -/
theorem c10_pubkey_ignores_trailing_witness :
    (1 ≤ 1 ∧ ([0x80, 0, 0, 0x2C] : List Nat).length = 4 * 1) ∧
    handle_get_public_key ⟨0, 0, (1 :: [0x80, 0, 0, 0x2C]) ++ [9, 9, 9]⟩ deriveConst zeroPath =
      handle_get_public_key ⟨0, 0, 1 :: [0x80, 0, 0, 0x2C]⟩ deriveConst zeroPath ∧
    handle_get_public_key ⟨0, 0, (1 :: [0x80, 0, 0, 0x2C]) ++ [9, 9, 9]⟩ deriveConst zeroPath =
      { status := SW_OK, response := List.replicate 32 7 } := by
  have h := c10_pubkey_ignores_trailing 1 [0x80, 0, 0, 0x2C] [9, 9, 9] 0 0
    deriveConst zeroPath (List.replicate 32 7) (by decide) (by decide) (by decide)
    (by decide) rfl (by decide)
  exact ⟨⟨by decide, by decide⟩, h.1, h.2.1⟩


end SumChain
